import Mathlib

/-!
Rubik cube state model (`rubik_cube.h`, `rubik_cube.cpp`) and animation coordinator
(`main.cpp`, `renderer.h`)

A shallow embedding of `RubikCube`: the member `faces`, a 6 x 3 x 3 grid of
`int`, is a function on bounded indices; every member function that mutates
the grid is a function from the grid before the call to the grid after it.
Loops `for (int i = 0; i < 3; i++)` are folds over the index list `[0, 1, 2]`
in that order, so that sequential overwrites happen exactly as in the source.
-/

namespace Rubik

/-! ## Data model -/

/-- The member `faces`: `faces[face][row][col]`, six faces of three rows of three ints. -/
abbrev Cube := Fin 6 → Fin 3 → Fin 3 → Int

/-- A cell position `(face, row, col)`. -/
abbrev Pos := Fin 6 × Fin 3 × Fin 3

/-- Value of `enum FaceColor`. -/
abbrev WHITE : Int := 0
/-- Value of `enum FaceColor`. -/
abbrev YELLOW : Int := 1
/-- Value of `enum FaceColor`. -/
abbrev RED : Int := 2
/-- Value of `enum FaceColor`. -/
abbrev ORANGE : Int := 3
/-- Value of `enum FaceColor`. -/
abbrev GREEN : Int := 4
/-- Value of `enum FaceColor`. -/
abbrev BLUE : Int := 5

/-- Value of `enum FaceIndex`. -/
abbrev RIGHT : Fin 6 := 0
/-- Value of `enum FaceIndex`. -/
abbrev LEFT : Fin 6 := 1
/-- Value of `enum FaceIndex`. -/
abbrev UP : Fin 6 := 2
/-- Value of `enum FaceIndex`. -/
abbrev DOWN : Fin 6 := 3
/-- Value of `enum FaceIndex`. -/
abbrev FRONT : Fin 6 := 4
/-- Value of `enum FaceIndex`. -/
abbrev BACK : Fin 6 := 5

/-- The local array `int faceColors[] = {RED, ORANGE, WHITE, YELLOW, GREEN, BLUE}`. -/
def faceColors (i : Fin 6) : Int :=
  [RED, ORANGE, WHITE, YELLOW, GREEN, BLUE].get i

/-- The loop `for (int i = 0; i < 3; i++) body`, threading the mutated value. -/
def for3 {σ : Type} (body : Fin 3 → σ → σ) (s : σ) : σ :=
  [(0 : Fin 3), 1, 2].foldl (fun acc i => body i acc) s

/-- The loop `for (int i = 0; i < 6; i++) body`, threading the mutated value. -/
def for6 {σ : Type} (body : Fin 6 → σ → σ) (s : σ) : σ :=
  [(0 : Fin 6), 1, 2, 3, 4, 5].foldl (fun acc i => body i acc) s

/-- The index expression `2 - i` for a loop index `i` in `0..2`. -/
def sub2 (i : Fin 3) : Fin 3 := ⟨2 - i.val, by omega⟩

/-- The assignment `faces[f][r][c] = v`. -/
def setCell (s : Cube) (f : Fin 6) (r c : Fin 3) (v : Int) : Cube :=
  fun f' r' c' => if f' = f ∧ r' = r ∧ c' = c then v else s f' r' c'

/-- The assignment `temp[i] = v` on a local `int temp[3]`. The array is declared without an
initialiser and every entry is written before it is read; the moves start it at 0. -/
def setTemp (t : Fin 3 → Int) (i : Fin 3) (v : Int) : Fin 3 → Int :=
  fun i' => if i' = i then v else t i'

/-- The assignment `temp[r][c] = v` on a local 3 x 3 grid. -/
def setTemp2 (t : Fin 3 → Fin 3 → Int) (r c : Fin 3) (v : Int) : Fin 3 → Fin 3 → Int :=
  fun r' c' => if r' = r ∧ c' = c then v else t r' c'

/-- The assignment `faces[face] = temp` of a whole 3 x 3 grid. -/
def setFace (s : Cube) (face : Fin 6) (t : Fin 3 → Fin 3 → Int) : Cube :=
  fun f' r' c' => if f' = face then t r' c' else s f' r' c'

/-- The call `faces[f][r].resize(3, v)` on an empty row, seen as an assignment of the row. -/
def setRow (s : Cube) (f : Fin 6) (r : Fin 3) (row : Fin 3 → Int) : Cube :=
  fun f' r' c' => if f' = f ∧ r' = r then row c' else s f' r' c'

/-- Read a cell by position. -/
def cellAt (s : Cube) (p : Pos) : Int := s p.1 p.2.1 p.2.2

/-! ## Construction and reset -/

/-- The constructor `RubikCube::RubikCube()`: every row of face `i` is resized to three
copies of `faceColors[i]`. The grid before the resizes has no cells; the fold starts from
a grid of zeros, all of which are overwritten. -/
def new : Cube :=
  for6 (fun i s => for3 (fun j s => setRow s i j (fun _ => faceColors i)) s) (fun _ _ _ => 0)

/-- The member `RubikCube::reset()`. -/
def reset (s : Cube) : Cube :=
  for6 (fun i s => for3 (fun j s => for3 (fun k s => setCell s i j k (faceColors i)) s) s) s

/-! ## Face rotation helpers -/

/-- The member `rotateFaceClockwise(face)`: `temp[j][2 - i] = faces[face][i][j]`, then
`faces[face] = temp`. -/
def rotateFaceClockwise (s : Cube) (face : Fin 6) : Cube :=
  let temp : Fin 3 → Fin 3 → Int :=
    for3 (fun i t => for3 (fun j t => setTemp2 t j (sub2 i) (s face i j)) t) (fun _ _ => 0)
  setFace s face temp

/-- The member `rotateFaceCounterClockwise(face)`: `temp[2 - j][i] = faces[face][i][j]`,
then `faces[face] = temp`. -/
def rotateFaceCounterClockwise (s : Cube) (face : Fin 6) : Cube :=
  let temp : Fin 3 → Fin 3 → Int :=
    for3 (fun i t => for3 (fun j t => setTemp2 t (sub2 j) i (s face i j)) t) (fun _ _ => 0)
  setFace s face temp

/-! ## The six clockwise moves -/

/-- The member `rotateR()`. -/
def rotateR (s0 : Cube) : Cube :=
  let s := rotateFaceClockwise s0 RIGHT
  let temp := for3 (fun i t => setTemp t i (s UP i 2)) (fun _ => 0)
  let s := for3 (fun i s => setCell s UP i 2 (s FRONT i 2)) s
  let s := for3 (fun i s => setCell s FRONT i 2 (s DOWN i 2)) s
  let s := for3 (fun i s => setCell s DOWN i 2 (s BACK (sub2 i) 0)) s
  for3 (fun i s => setCell s BACK (sub2 i) 0 (temp i)) s

/-- The member `rotateL()`. -/
def rotateL (s0 : Cube) : Cube :=
  let s := rotateFaceClockwise s0 LEFT
  let temp := for3 (fun i t => setTemp t i (s UP i 0)) (fun _ => 0)
  let s := for3 (fun i s => setCell s UP i 0 (s BACK (sub2 i) 2)) s
  let s := for3 (fun i s => setCell s BACK (sub2 i) 2 (s DOWN i 0)) s
  let s := for3 (fun i s => setCell s DOWN i 0 (s FRONT i 0)) s
  for3 (fun i s => setCell s FRONT i 0 (temp i)) s

/-- The member `rotateU()`. -/
def rotateU (s0 : Cube) : Cube :=
  let s := rotateFaceClockwise s0 UP
  let temp := for3 (fun i t => setTemp t i (s FRONT 0 i)) (fun _ => 0)
  let s := for3 (fun i s => setCell s FRONT 0 i (s RIGHT 0 i)) s
  let s := for3 (fun i s => setCell s RIGHT 0 i (s BACK 0 i)) s
  let s := for3 (fun i s => setCell s BACK 0 i (s LEFT 0 i)) s
  for3 (fun i s => setCell s LEFT 0 i (temp i)) s

/-- The member `rotateD()`. -/
def rotateD (s0 : Cube) : Cube :=
  let s := rotateFaceClockwise s0 DOWN
  let temp := for3 (fun i t => setTemp t i (s FRONT 2 i)) (fun _ => 0)
  let s := for3 (fun i s => setCell s FRONT 2 i (s LEFT 2 i)) s
  let s := for3 (fun i s => setCell s LEFT 2 i (s BACK 2 i)) s
  let s := for3 (fun i s => setCell s BACK 2 i (s RIGHT 2 i)) s
  for3 (fun i s => setCell s RIGHT 2 i (temp i)) s

/-- The member `rotateF()`. -/
def rotateF (s0 : Cube) : Cube :=
  let s := rotateFaceClockwise s0 FRONT
  let temp := for3 (fun i t => setTemp t i (s UP 2 i)) (fun _ => 0)
  let s := for3 (fun i s => setCell s UP 2 i (s LEFT (sub2 i) 2)) s
  let s := for3 (fun i s => setCell s LEFT (sub2 i) 2 (s DOWN 0 (sub2 i))) s
  let s := for3 (fun i s => setCell s DOWN 0 (sub2 i) (s RIGHT i 0)) s
  for3 (fun i s => setCell s RIGHT i 0 (temp i)) s

/-- The member `rotateB()`. -/
def rotateB (s0 : Cube) : Cube :=
  let s := rotateFaceClockwise s0 BACK
  let temp := for3 (fun i t => setTemp t i (s UP 0 i)) (fun _ => 0)
  let s := for3 (fun i s => setCell s UP 0 i (s RIGHT i 2)) s
  let s := for3 (fun i s => setCell s RIGHT i 2 (s DOWN 2 (sub2 i))) s
  let s := for3 (fun i s => setCell s DOWN 2 (sub2 i) (s LEFT (sub2 i) 0)) s
  for3 (fun i s => setCell s LEFT (sub2 i) 0 (temp i)) s

/-! ## The six counter-clockwise moves -/

/-- The member `rotateRPrime()`: `rotateR(); rotateR(); rotateR();`. -/
def rotateRPrime (s : Cube) : Cube := rotateR (rotateR (rotateR s))

/-- The member `rotateLPrime()`. -/
def rotateLPrime (s : Cube) : Cube := rotateL (rotateL (rotateL s))

/-- The member `rotateUPrime()`. -/
def rotateUPrime (s : Cube) : Cube := rotateU (rotateU (rotateU s))

/-- The member `rotateDPrime()`. -/
def rotateDPrime (s : Cube) : Cube := rotateD (rotateD (rotateD s))

/-- The member `rotateFPrime()`. -/
def rotateFPrime (s : Cube) : Cube := rotateF (rotateF (rotateF s))

/-- The member `rotateBPrime()`. -/
def rotateBPrime (s : Cube) : Cube := rotateB (rotateB (rotateB s))

/-! ## Move tokens, scramble, solved check -/

/-- The member `applyMove(move)`: the returned flag and the grid after the call. The
source compares each primed token twice (`move == "R'" || move == "R'"`); both
comparisons are kept. -/
def applyMove (move : String) (s : Cube) : Bool × Cube :=
  if move = "R" then (true, rotateR s)
  else if move = "R'" ∨ move = "R'" then (true, rotateRPrime s)
  else if move = "L" then (true, rotateL s)
  else if move = "L'" ∨ move = "L'" then (true, rotateLPrime s)
  else if move = "U" then (true, rotateU s)
  else if move = "U'" ∨ move = "U'" then (true, rotateUPrime s)
  else if move = "D" then (true, rotateD s)
  else if move = "D'" ∨ move = "D'" then (true, rotateDPrime s)
  else if move = "F" then (true, rotateF s)
  else if move = "F'" ∨ move = "F'" then (true, rotateFPrime s)
  else if move = "B" then (true, rotateB s)
  else if move = "B'" ∨ move = "B'" then (true, rotateBPrime s)
  else (false, s)

/-- The local vector `moves` of `scramble`. -/
def moves : List String :=
  ["R", "R'", "L", "L'", "U", "U'", "D", "D'", "F", "F'", "B", "B'"]

/-- The member `scramble(numMoves)`. The generator seeded from the clock is abstracted
as the sequence of indices it yields: `dist i` is the value of `dist(rng)` in iteration
`i` (the distribution ranges over `0 .. moves.size() - 1`). The loop
`for (int i = 0; i < numMoves; i++)` runs `numMoves` times, and not at all when
`numMoves <= 0`. -/
def scramble (numMoves : Int) (dist : Nat → Fin 12) (s : Cube) : Cube :=
  (List.range numMoves.toNat).foldl (fun acc i => (applyMove (moves.get (dist i)) acc).2) s

/-- The member `isSolved()`: the three nested loops return `false` at the first cell that
differs from the expected colour of its face and `true` when none does. -/
def isSolved (s : Cube) : Bool :=
  [(0 : Fin 6), 1, 2, 3, 4, 5].all fun face =>
    [(0 : Fin 3), 1, 2].all fun row =>
      [(0 : Fin 3), 1, 2].all fun col => decide (s face row col = faceColors face)

/-! ## Vocabulary of the properties -/

/-- The twelve move members. -/
def twelveMoves : List (Cube → Cube) :=
  [rotateR, rotateRPrime, rotateL, rotateLPrime, rotateU, rotateUPrime,
   rotateD, rotateDPrime, rotateF, rotateFPrime, rotateB, rotateBPrime]

/-- The six clockwise move members. -/
def clockwiseMoves : List (Cube → Cube) :=
  [rotateR, rotateL, rotateU, rotateD, rotateF, rotateB]

/-- All 54 positions, face by face, row by row. -/
def allPos : List Pos :=
  (List.finRange 6).flatMap fun f =>
    (List.finRange 3).flatMap fun r => (List.finRange 3).map fun c => (f, r, c)

/-- The 54 values of a grid, in the order of `allPos`. -/
def cells (s : Cube) : List Int := allPos.map (cellAt s)

/-- The six values of `enum FaceColor`. -/
def sixColours : List Int := [WHITE, YELLOW, RED, ORANGE, GREEN, BLUE]

/-- A grid whose cell `(f, r, c)` holds the number `9 f + 3 r + c`: running a move on it
shows where each cell of the result was read from. -/
def label : Cube := fun f r c => 9 * (f.val : Int) + 3 * (r.val : Int) + (c.val : Int)

/-- The position whose label is `n`. -/
def decodePos (n : Int) : Pos :=
  (⟨n.toNat / 9 % 6, Nat.mod_lt _ (by decide)⟩, ⟨n.toNat / 3 % 3, Nat.mod_lt _ (by decide)⟩,
   ⟨n.toNat % 3, Nat.mod_lt _ (by decide)⟩)

/-- The source position of each cell under the move `mv`, read off the labelled grid. -/
def traceOf (mv : Cube → Cube) (c : Pos) : Pos := decodePos (cellAt (mv label) c)

/-- A move is a shuffle when it copies cells along a fixed bijection of positions. -/
def IsShuffle (mv : Cube → Cube) : Prop :=
  ∃ p : Pos → Pos, Function.Bijective p ∧ ∀ (S : Cube) (c : Pos), cellAt (mv S) c = cellAt S (p c)

/-- Run a list of moves, first element first. -/
def runMoves (ms : List (Cube → Cube)) (s : Cube) : Cube := ms.foldl (fun acc m => m acc) s

/-- Call `applyMove` on a list of tokens, first element first, ignoring the flags. -/
def runTokens (ts : List String) (s : Cube) : Cube := ts.foldl (fun acc t => (applyMove t acc).2) s

/-- States reachable from a newly constructed cube by `reset`, the twelve moves,
`applyMove` with any string, and `scramble` with any count and any drawn indices. -/
inductive Reachable : Cube → Prop
  | construct : Reachable new
  | byReset (s : Cube) : Reachable s → Reachable (reset s)
  | byMove (mv : Cube → Cube) (s : Cube) : mv ∈ twelveMoves → Reachable s → Reachable (mv s)
  | byApplyMove (t : String) (s : Cube) : Reachable s → Reachable (applyMove t s).2
  | byScramble (k : Int) (dist : Nat → Fin 12) (s : Cube) :
      Reachable s → Reachable (scramble k dist s)

/-- States reachable from the solved cube by a finite sequence of the twelve moves. -/
inductive MoveReachable : Cube → Prop
  | solved : MoveReachable new
  | step (mv : Cube → Cube) (s : Cube) : mv ∈ twelveMoves → MoveReachable s → MoveReachable (mv s)

/-- An edge cell: exactly one of row and column is the middle one. -/
def isEdge (p : Pos) : Bool := (p.2.1 == 1) != (p.2.2 == 1)

/-- The other cell on the same edge piece (the position itself for a non-edge cell). -/
def edgeMate (p : Pos) : Pos :=
  match p.1.val, p.2.1.val, p.2.2.val with
  | 0, 0, 1 => (2, 1, 2) | 0, 1, 0 => (4, 1, 2) | 0, 1, 2 => (5, 1, 0) | 0, 2, 1 => (3, 1, 2)
  | 1, 0, 1 => (2, 1, 0) | 1, 1, 0 => (5, 1, 2) | 1, 1, 2 => (4, 1, 0) | 1, 2, 1 => (3, 1, 0)
  | 2, 0, 1 => (5, 0, 1) | 2, 1, 0 => (1, 0, 1) | 2, 1, 2 => (0, 0, 1) | 2, 2, 1 => (4, 0, 1)
  | 3, 0, 1 => (4, 2, 1) | 3, 1, 0 => (1, 2, 1) | 3, 1, 2 => (0, 2, 1) | 3, 2, 1 => (5, 2, 1)
  | 4, 0, 1 => (2, 2, 1) | 4, 1, 0 => (1, 1, 2) | 4, 1, 2 => (0, 1, 0) | 4, 2, 1 => (3, 0, 1)
  | 5, 0, 1 => (2, 0, 1) | 5, 1, 0 => (0, 1, 2) | 5, 1, 2 => (1, 1, 0) | 5, 2, 1 => (3, 2, 1)
  | _, _, _ => p

/-- No two edge cells show the same ordered pair (own colour, colour of the mate). -/
def EdgesDistinct (s : Cube) : Prop :=
  ∀ c d : Pos, isEdge c = true → isEdge d = true → cellAt s c = cellAt s d →
    cellAt s (edgeMate c) = cellAt s (edgeMate d) → c = d

/-- A position map that sends edge cells to edge cells and mates to mates. -/
def RespectsEdges (p : Pos → Pos) : Prop :=
  ∀ c : Pos, isEdge c = true → isEdge (p c) = true ∧ edgeMate (p c) = p (edgeMate c)

/-- The block `R, R, U, U, R, R, U, U` as move members. -/
def block8 : List (Cube → Cube) :=
  [rotateR, rotateR, rotateU, rotateU, rotateR, rotateR, rotateU, rotateU]

/-- The block `R, R, U, U, R, R, U, U` as tokens. -/
def block8Tokens : List String := ["R", "R", "U", "U", "R", "R", "U", "U"]

/-- What is required of one face: the token of the clockwise move runs `rot`, the primed
token runs `rotPrime`, and the primed token leaves the state that three calls with the
unprimed token leave. -/
def PrimeSpec (x xPrime : String) (rot rotPrime : Cube → Cube) (S : Cube) : Prop :=
  applyMove x S = (true, rot S) ∧ applyMove xPrime S = (true, rotPrime S) ∧
  rotPrime S = rot (rot (rot S)) ∧
  (applyMove xPrime S).2 = (applyMove x (applyMove x (applyMove x S).2).2).2

/-! ## Accessor -/

/-- Outcome of the read `faces[face][row][col]` through `std::vector::operator[]`. -/
inductive Access where
  /-- The element read, all three indices in range. -/
  | value (v : Int)
  /-- An index out of range: `operator[]` makes no check and the read has no defined result. -/
  | undefinedBehaviour
  /-- An error raised by a bounds check. No statement of the source raises one. -/
  | boundsError
  deriving DecidableEq, Repr

/-- The member `getColor(face, row, col)`: `return faces[face][row][col];`, three unchecked
reads with `int` indices; the state is not touched (`const`). -/
def getColor (s : Cube) (face row col : Int) : Access :=
  if h : (0 ≤ face ∧ face < 6) ∧ (0 ≤ row ∧ row < 3) ∧ (0 ≤ col ∧ col < 3) then
    Access.value (s ⟨face.toNat, by omega⟩ ⟨row.toNat, by omega⟩ ⟨col.toNat, by omega⟩)
  else Access.undefinedBehaviour

/-! ## Binary32 arithmetic (`float`) -/

/-- The power `2 ^ k` for an integer exponent, as a rational. -/
def pow2 (k : Int) : Rat :=
  if 0 ≤ k then ((2 ^ k.toNat : Nat) : Rat) else 1 / ((2 ^ (-k).toNat : Nat) : Rat)

/-- Number of halvings that bring `n` below 2, with `fuel` bounding the recursion. -/
def log2Fuel : Nat → Nat → Nat
  | 0, _ => 0
  | fuel + 1, n => if n < 2 then 0 else log2Fuel fuel (n / 2) + 1

/-- The integer binary logarithm of `n` (0 for `n = 0`). -/
def ilog2 (n : Nat) : Nat := log2Fuel n n

/-- The binary exponent of a non-zero rational: `2 ^ e ≤ |x| < 2 ^ (e + 1)`. -/
def binade (x : Rat) : Int :=
  let e0 : Int := (ilog2 x.num.natAbs : Int) - (ilog2 x.den : Int)
  if pow2 e0 ≤ |x| then e0 else e0 - 1

/-- The spacing of the binary32 values around `x`: 24 significant bits, the exponent not
below -126 (below that the values are subnormal, equally spaced by `2 ^ -149`). -/
def ulp32 (x : Rat) : Rat := pow2 (max (binade x) (-126) - 23)

/-- Rounding to the nearest integer, ties to the even one. -/
def roundNE (w : Rat) : Int :=
  let f := Rat.floor w
  if w - f < 1 / 2 then f
  else if 1 / 2 < w - f then f + 1
  else if f % 2 = 0 then f else f + 1

/-- The result of a binary32 operation whose exact result is `x`: the nearest binary32
value, ties to even (IEEE 754 default rounding, each operation rounded once). A `float` is
represented by the rational it denotes. Overflow to infinity is not represented: a result
beyond the binary32 range stays a large finite value, which compares with the sweep targets
as infinity does. -/
def roundF32 (x : Rat) : Rat :=
  if x = 0 then 0
  else if 0 < x then roundNE (x / ulp32 x) * ulp32 x
  else -(roundNE (-x / ulp32 x) * ulp32 x)

/-- A rational that is a binary32 value: an integer multiple of the spacing around it. -/
def Representable (f : Rat) : Prop := ∃ m : Int, f = m * ulp32 f

/-! ## Animation coordinator (`main.cpp`, `renderer.h`) -/

/-- The struct `AnimationState`; a `float` member holds the rational that the binary32
value denotes. -/
structure AnimationState where
  face : Int
  currentAngle : Rat
  targetAngle : Rat
  isAnimating : Bool
  clockwise : Bool
  deriving DecidableEq

/-- The constructor `AnimationState()`. -/
def AnimationState.init : AnimationState :=
  { face := -1, currentAngle := 0, targetAngle := 0, isAnimating := false, clockwise := true }

/-- The members of `RubikGame` that the animation and key handlers read or write: `cube`,
`animation`, `showInstructions`, the string of `statusText`, and the family name of `font`
(read by `updateUI`). The renderer, the mouse members and `animationClock` (restarted but
never read) are left out. -/
structure RubikGame where
  cube : Cube
  animation : AnimationState
  showInstructions : Bool
  statusText : String
  fontFamily : String

/-- The constant `ANIMATION_SPEED`, degrees per second. -/
def ANIMATION_SPEED : Rat := 300

/-- The member `updateUI()`. -/
def updateUI (g : RubikGame) : RubikGame :=
  if g.fontFamily = "" then g
  else { g with statusText := if isSolved g.cube then "Solved" else "" }

/-- The member `applyRotationToCube()`: the switch on `animation.face`, then `updateUI()`. -/
def applyRotationToCube (g : RubikGame) : RubikGame :=
  let cube :=
    if g.animation.face = 0 then
      (if g.animation.clockwise then rotateR g.cube else rotateRPrime g.cube)
    else if g.animation.face = 1 then
      (if g.animation.clockwise then rotateL g.cube else rotateLPrime g.cube)
    else if g.animation.face = 2 then
      (if g.animation.clockwise then rotateU g.cube else rotateUPrime g.cube)
    else if g.animation.face = 3 then
      (if g.animation.clockwise then rotateD g.cube else rotateDPrime g.cube)
    else if g.animation.face = 4 then
      (if g.animation.clockwise then rotateF g.cube else rotateFPrime g.cube)
    else if g.animation.face = 5 then
      (if g.animation.clockwise then rotateB g.cube else rotateBPrime g.cube)
    else g.cube
  updateUI { g with cube := cube }

/-- The member `updateAnimation(deltaTime)`. The product `ANIMATION_SPEED * deltaTime` and
the sums `currentAngle += angleDelta`, `currentAngle -= angleDelta` are `float` operations,
each rounded to binary32; the comparisons with `targetAngle` are exact. -/
def updateAnimation (deltaTime : Rat) (g : RubikGame) : RubikGame :=
  if g.animation.isAnimating = false then g
  else
    let angleDelta := roundF32 (ANIMATION_SPEED * deltaTime)
    if g.animation.clockwise then
      let a : AnimationState := { g.animation with
        currentAngle := roundF32 (g.animation.currentAngle + angleDelta) }
      if a.currentAngle ≥ a.targetAngle then
        applyRotationToCube
          { g with animation := { a with currentAngle := a.targetAngle, isAnimating := false } }
      else { g with animation := a }
    else
      let a : AnimationState := { g.animation with
        currentAngle := roundF32 (g.animation.currentAngle - angleDelta) }
      if a.currentAngle ≤ a.targetAngle then
        applyRotationToCube
          { g with animation := { a with currentAngle := a.targetAngle, isAnimating := false } }
      else { g with animation := a }

/-- The member `startAnimation(face, clockwise)`. -/
def startAnimation (face : Int) (clockwise : Bool) (g : RubikGame) : RubikGame :=
  if g.animation.isAnimating then g
  else
    { g with animation :=
        { face := face, clockwise := clockwise, currentAngle := 0,
          targetAngle := if clockwise then 90 else -90, isAnimating := true } }

/-- The values of `sf::Keyboard::Key` that `handleKeyPress` distinguishes. -/
inductive Key where
  | Q | W | E | R | T | Y | S | Space | I | other
  deriving DecidableEq

/-- The member `handleKeyPress(key)`. `shift` is the state of the shift keys read from the
keyboard, `dist` the indices drawn by `cube.scramble()` (default count 25). -/
def handleKeyPress (key : Key) (shift : Bool) (dist : Nat → Fin 12) (g : RubikGame) :
    RubikGame :=
  if g.animation.isAnimating then g
  else
    match key with
    | Key.Q => startAnimation 0 (!shift) g
    | Key.W => startAnimation 1 (!shift) g
    | Key.E => startAnimation 2 (!shift) g
    | Key.R => startAnimation 3 (!shift) g
    | Key.T => startAnimation 4 (!shift) g
    | Key.Y => startAnimation 5 (!shift) g
    | Key.S => updateUI { g with cube := scramble 25 dist g.cube }
    | Key.Space =>
      updateUI { g with cube := reset g.cube, animation := { g.animation with isAnimating := false } }
    | Key.I => { g with showInstructions := !g.showInstructions }
    | Key.other => g

/-! ## Vocabulary of the coordinator and geometry properties -/

/-- The clockwise move member of each face, by `FaceIndex`. -/
def clockwiseMove (f : Fin 6) : Cube → Cube :=
  [rotateR, rotateL, rotateU, rotateD, rotateF, rotateB].get f

/-- The counter-clockwise move member of each face, by `FaceIndex`. -/
def primeMove (f : Fin 6) : Cube → Cube :=
  [rotateRPrime, rotateLPrime, rotateUPrime, rotateDPrime, rotateFPrime, rotateBPrime].get f

/-- A sweep for `(face, clockwise)` in progress: started from idle by
`startAnimation(face, clockwise)` and continued by ticks with non-negative elapsed time
that did not complete it. -/
inductive InSweep (face : Int) (clockwise : Bool) : RubikGame → Prop
  | start (g : RubikGame) : g.animation.isAnimating = false →
      InSweep face clockwise (startAnimation face clockwise g)
  | tick (g : RubikGame) (dt : Rat) : InSweep face clockwise g → 0 ≤ dt →
      (updateAnimation dt g).animation.isAnimating = true →
      InSweep face clockwise (updateAnimation dt g)

/-- A vector of three integers. -/
abbrev V3 := Int × Int × Int

/-- Scalar product. -/
def dot (a b : V3) : Int := a.1 * b.1 + a.2.1 * b.2.1 + a.2.2 * b.2.2

/-- Vector product. -/
def cross (a b : V3) : V3 :=
  (a.2.1 * b.2.2 - a.2.2 * b.2.1, a.2.2 * b.1 - a.1 * b.2.2, a.1 * b.2.1 - a.2.1 * b.1)

/-- Outward normal of each face: RIGHT `+x`, LEFT `-x`, UP `+y`, DOWN `-y`, FRONT `+z`,
BACK `-z`, as in `Renderer::drawCubie`. -/
def normalOf (f : Fin 6) : V3 :=
  [((1 : Int), (0 : Int), (0 : Int)), (-1, 0, 0), (0, 1, 0), (0, -1, 0), (0, 0, 1),
    (0, 0, -1)].get f

/-- Cubie position `(x, y, z)` of the facelet `(face, row, col)`: the inverse of the index
computations of `Renderer::drawCubie` (RIGHT `row = 1 - y, col = 1 - z`; LEFT
`row = 1 - y, col = z + 1`; UP `row = z + 1, col = x + 1`; DOWN `row = 1 - z, col = x + 1`;
FRONT `row = 1 - y, col = x + 1`; BACK `row = 1 - y, col = 1 - x`). -/
def cubieOf (p : Pos) : V3 :=
  let row : Int := p.2.1.val
  let col : Int := p.2.2.val
  [((1 : Int), 1 - row, 1 - col), (-1, 1 - row, col - 1), (col - 1, 1, row - 1),
   (col - 1, -1, 1 - row), (col - 1, 1 - row, 1), (1 - col, 1 - row, -1)].get p.1

/-- The index computations of `Renderer::drawCubie`: the `(row, col)` of the cell of
`faces[f]` that is drawn on the cubie `(cubieX, cubieY, cubieZ)`. -/
def drawnCell (f : Fin 6) (c : V3) : Int × Int :=
  [(1 - c.2.1, 1 - c.2.2), (1 - c.2.1, c.2.2 + 1), (c.2.2 + 1, c.1 + 1), (1 - c.2.2, c.1 + 1),
   (1 - c.2.1, c.1 + 1), (1 - c.2.1, 1 - c.1)].get f

/-- Quarter turn about the axis `n` (a unit vector), clockwise as seen from the tip of `n`:
the rotation by minus ninety degrees, `v ↦ (n · v) n + v × n`. -/
def quarterTurn (n v : V3) : V3 :=
  let d := dot n v
  let c := cross v n
  (d * n.1 + c.1, d * n.2.1 + c.2.1, d * n.2.2 + c.2.2)

/-- The facelet at cubie position `pos` with outward normal `nrm`, if there is one. -/
def faceletAt (pos nrm : V3) : Option Pos :=
  allPos.find? (fun p => decide (cubieOf p = pos ∧ normalOf p.1 = nrm))

/-- The facelet reached from `p` by the clockwise quarter turn of face `X`. -/
def turned (X : Fin 6) (p : Pos) : Option Pos :=
  faceletAt (quarterTurn (normalOf X) (cubieOf p)) (quarterTurn (normalOf X) (normalOf p.1))

/-- The facelet `p` lies on a cubie of the layer of face `X`. -/
def inLayer (X : Fin 6) (p : Pos) : Bool := decide (dot (normalOf X) (cubieOf p) = 1)

/-- The eight non-centre cells of a face. -/
def rim (f : Fin 6) : List Pos :=
  [(f, 0, 0), (f, 0, 1), (f, 0, 2), (f, 1, 0), (f, 1, 2), (f, 2, 0), (f, 2, 1), (f, 2, 2)]

/-- Row `r` of face `f`. -/
def rowOf (f : Fin 6) (r : Fin 3) : List Pos := [(f, r, 0), (f, r, 1), (f, r, 2)]

/-- Column `c` of face `f`. -/
def colOf (f : Fin 6) (c : Fin 3) : List Pos := [(f, 0, c), (f, 1, c), (f, 2, c)]

/-- The cells a clockwise move of face `X` may change: the rim of `X` and four strips. -/
def mayChange (X : Fin 6) : List Pos :=
  [rim RIGHT ++ colOf UP 2 ++ colOf FRONT 2 ++ colOf DOWN 2 ++ colOf BACK 0,
   rim LEFT ++ colOf UP 0 ++ colOf FRONT 0 ++ colOf DOWN 0 ++ colOf BACK 2,
   rim UP ++ rowOf FRONT 0 ++ rowOf RIGHT 0 ++ rowOf BACK 0 ++ rowOf LEFT 0,
   rim DOWN ++ rowOf FRONT 2 ++ rowOf LEFT 2 ++ rowOf BACK 2 ++ rowOf RIGHT 2,
   rim FRONT ++ rowOf UP 2 ++ colOf RIGHT 0 ++ rowOf DOWN 0 ++ colOf LEFT 2,
   rim BACK ++ rowOf UP 0 ++ colOf RIGHT 2 ++ rowOf DOWN 2 ++ colOf LEFT 0].get X

/-- The face opposite to `X`. -/
def opposite (X : Fin 6) : Fin 6 := [LEFT, RIGHT, DOWN, UP, BACK, FRONT].get X

/-- Check of one facelet against the geometry: a facelet of the layer of `X` is the source
of the facelet it turns to, any other facelet is its own source. -/
def geometryCheck (X : Fin 6) (p : Pos) : Bool :=
  if inLayer X p then
    match turned X p with
    | some q => decide (traceOf (clockwiseMove X) q = p)
    | none => false
  else decide (traceOf (clockwiseMove X) p = p)

/-- A game at rest on the solved cube, no font loaded. -/
def restGame : RubikGame :=
  { cube := new, animation := AnimationState.init, showInstructions := true,
    statusText := "", fontFamily := "" }

/-- A clockwise sweep of the RIGHT face on the solved cube, a quarter of a second in: the
angle stands at 75 degrees. -/
def sweepAt75 : RubikGame := updateAnimation (1 / 4) (startAnimation 0 true restGame)

/-! ## Cell-level description of the clockwise moves -/

theorem rotateR_cell (S : Cube) (c : Pos) :
    cellAt (rotateR S) c = cellAt S (traceOf rotateR c) := by
  obtain ⟨f, r, k⟩ := c
  fin_cases f <;> fin_cases r <;> fin_cases k <;> rfl

theorem rotateL_cell (S : Cube) (c : Pos) :
    cellAt (rotateL S) c = cellAt S (traceOf rotateL c) := by
  obtain ⟨f, r, k⟩ := c
  fin_cases f <;> fin_cases r <;> fin_cases k <;> rfl

theorem rotateU_cell (S : Cube) (c : Pos) :
    cellAt (rotateU S) c = cellAt S (traceOf rotateU c) := by
  obtain ⟨f, r, k⟩ := c
  fin_cases f <;> fin_cases r <;> fin_cases k <;> rfl

theorem rotateD_cell (S : Cube) (c : Pos) :
    cellAt (rotateD S) c = cellAt S (traceOf rotateD c) := by
  obtain ⟨f, r, k⟩ := c
  fin_cases f <;> fin_cases r <;> fin_cases k <;> rfl

theorem rotateF_cell (S : Cube) (c : Pos) :
    cellAt (rotateF S) c = cellAt S (traceOf rotateF c) := by
  obtain ⟨f, r, k⟩ := c
  fin_cases f <;> fin_cases r <;> fin_cases k <;> rfl

theorem rotateB_cell (S : Cube) (c : Pos) :
    cellAt (rotateB S) c = cellAt S (traceOf rotateB c) := by
  obtain ⟨f, r, k⟩ := c
  fin_cases f <;> fin_cases r <;> fin_cases k <;> rfl

/-! ## Four quarter turns of the source map -/

theorem traceOf_rotateR_four (c : Pos) :
    traceOf rotateR (traceOf rotateR (traceOf rotateR (traceOf rotateR c))) = c := by
  obtain ⟨f, r, k⟩ := c
  fin_cases f <;> fin_cases r <;> fin_cases k <;> rfl

theorem traceOf_rotateL_four (c : Pos) :
    traceOf rotateL (traceOf rotateL (traceOf rotateL (traceOf rotateL c))) = c := by
  obtain ⟨f, r, k⟩ := c
  fin_cases f <;> fin_cases r <;> fin_cases k <;> rfl

theorem traceOf_rotateU_four (c : Pos) :
    traceOf rotateU (traceOf rotateU (traceOf rotateU (traceOf rotateU c))) = c := by
  obtain ⟨f, r, k⟩ := c
  fin_cases f <;> fin_cases r <;> fin_cases k <;> rfl

theorem traceOf_rotateD_four (c : Pos) :
    traceOf rotateD (traceOf rotateD (traceOf rotateD (traceOf rotateD c))) = c := by
  obtain ⟨f, r, k⟩ := c
  fin_cases f <;> fin_cases r <;> fin_cases k <;> rfl

theorem traceOf_rotateF_four (c : Pos) :
    traceOf rotateF (traceOf rotateF (traceOf rotateF (traceOf rotateF c))) = c := by
  obtain ⟨f, r, k⟩ := c
  fin_cases f <;> fin_cases r <;> fin_cases k <;> rfl

theorem traceOf_rotateB_four (c : Pos) :
    traceOf rotateB (traceOf rotateB (traceOf rotateB (traceOf rotateB c))) = c := by
  obtain ⟨f, r, k⟩ := c
  fin_cases f <;> fin_cases r <;> fin_cases k <;> rfl

/-! ## Generic consequences -/

theorem cube_ext {S T : Cube} (h : ∀ c : Pos, cellAt S c = cellAt T c) : S = T := by
  funext f r k
  exact h (f, r, k)

/-- A move that copies along `p`, with `p` of order dividing four, undoes itself in four steps. -/
theorem four_of_cell (mv : Cube → Cube) (p : Pos → Pos)
    (hcell : ∀ S c, cellAt (mv S) c = cellAt S (p c))
    (h4 : ∀ c, p (p (p (p c))) = c) (S : Cube) : mv (mv (mv (mv S))) = S := by
  apply cube_ext
  intro c
  rw [hcell, hcell, hcell, hcell, h4]

theorem bijective_of_four (p : Pos → Pos) (h4 : ∀ c, p (p (p (p c))) = c) :
    Function.Bijective p := by
  constructor
  · intro a b hab
    have h := congrArg (fun x => p (p (p x))) hab
    simpa [h4] using h
  · intro b
    exact ⟨p (p (p b)), h4 b⟩

theorem isShuffle_of_cell (mv : Cube → Cube) (p : Pos → Pos)
    (hcell : ∀ S c, cellAt (mv S) c = cellAt S (p c))
    (h4 : ∀ c, p (p (p (p c))) = c) : IsShuffle mv :=
  ⟨p, bijective_of_four p h4, hcell⟩

theorem isShuffle_comp {m1 m2 : Cube → Cube} (h1 : IsShuffle m1) (h2 : IsShuffle m2) :
    IsShuffle (fun S => m1 (m2 S)) := by
  obtain ⟨p1, b1, c1⟩ := h1
  obtain ⟨p2, b2, c2⟩ := h2
  refine ⟨fun c => p2 (p1 c), b2.comp b1, ?_⟩
  intro S c
  simp only [c1, c2]

theorem isShuffle_thrice {mv : Cube → Cube} (h : IsShuffle mv) :
    IsShuffle (fun S => mv (mv (mv S))) :=
  isShuffle_comp h (isShuffle_comp h h)

theorem isShuffle_id : IsShuffle (fun S => S) :=
  ⟨id, Function.bijective_id, fun _ _ => rfl⟩

theorem rotateR_four (S : Cube) : rotateR (rotateR (rotateR (rotateR S))) = S :=
  four_of_cell rotateR _ rotateR_cell traceOf_rotateR_four S

theorem rotateL_four (S : Cube) : rotateL (rotateL (rotateL (rotateL S))) = S :=
  four_of_cell rotateL _ rotateL_cell traceOf_rotateL_four S

theorem rotateU_four (S : Cube) : rotateU (rotateU (rotateU (rotateU S))) = S :=
  four_of_cell rotateU _ rotateU_cell traceOf_rotateU_four S

theorem rotateD_four (S : Cube) : rotateD (rotateD (rotateD (rotateD S))) = S :=
  four_of_cell rotateD _ rotateD_cell traceOf_rotateD_four S

theorem rotateF_four (S : Cube) : rotateF (rotateF (rotateF (rotateF S))) = S :=
  four_of_cell rotateF _ rotateF_cell traceOf_rotateF_four S

theorem rotateB_four (S : Cube) : rotateB (rotateB (rotateB (rotateB S))) = S :=
  four_of_cell rotateB _ rotateB_cell traceOf_rotateB_four S

theorem isShuffle_rotateR : IsShuffle rotateR :=
  isShuffle_of_cell rotateR _ rotateR_cell traceOf_rotateR_four

theorem isShuffle_rotateL : IsShuffle rotateL :=
  isShuffle_of_cell rotateL _ rotateL_cell traceOf_rotateL_four

theorem isShuffle_rotateU : IsShuffle rotateU :=
  isShuffle_of_cell rotateU _ rotateU_cell traceOf_rotateU_four

theorem isShuffle_rotateD : IsShuffle rotateD :=
  isShuffle_of_cell rotateD _ rotateD_cell traceOf_rotateD_four

theorem isShuffle_rotateF : IsShuffle rotateF :=
  isShuffle_of_cell rotateF _ rotateF_cell traceOf_rotateF_four

theorem isShuffle_rotateB : IsShuffle rotateB :=
  isShuffle_of_cell rotateB _ rotateB_cell traceOf_rotateB_four

theorem isShuffle_of_mem {mv : Cube → Cube} (h : mv ∈ twelveMoves) : IsShuffle mv := by
  simp only [twelveMoves, List.mem_cons, List.mem_singleton, List.not_mem_nil, or_false] at h
  rcases h with h | h | h | h | h | h | h | h | h | h | h | h <;> subst h
  · exact isShuffle_rotateR
  · exact isShuffle_thrice isShuffle_rotateR
  · exact isShuffle_rotateL
  · exact isShuffle_thrice isShuffle_rotateL
  · exact isShuffle_rotateU
  · exact isShuffle_thrice isShuffle_rotateU
  · exact isShuffle_rotateD
  · exact isShuffle_thrice isShuffle_rotateD
  · exact isShuffle_rotateF
  · exact isShuffle_thrice isShuffle_rotateF
  · exact isShuffle_rotateB
  · exact isShuffle_thrice isShuffle_rotateB

theorem four_of_mem {mv : Cube → Cube} (h : mv ∈ twelveMoves) (S : Cube) :
    mv (mv (mv (mv S))) = S := by
  simp only [twelveMoves, List.mem_cons, List.mem_singleton, List.not_mem_nil, or_false] at h
  rcases h with h | h | h | h | h | h | h | h | h | h | h | h <;> subst h
  · exact rotateR_four S
  · simp only [rotateRPrime, rotateR_four]
  · exact rotateL_four S
  · simp only [rotateLPrime, rotateL_four]
  · exact rotateU_four S
  · simp only [rotateUPrime, rotateU_four]
  · exact rotateD_four S
  · simp only [rotateDPrime, rotateD_four]
  · exact rotateF_four S
  · simp only [rotateFPrime, rotateF_four]
  · exact rotateB_four S
  · simp only [rotateBPrime, rotateB_four]

/-! ## Colour conservation, reset and the solved check -/

theorem mem_allPos (c : Pos) : c ∈ allPos := by
  obtain ⟨f, r, k⟩ := c
  fin_cases f <;> fin_cases r <;> fin_cases k <;> decide

theorem allPos_nodup : allPos.Nodup := by decide

theorem cells_perm_of_shuffle {mv : Cube → Cube} (h : IsShuffle mv) (S : Cube) :
    (cells (mv S)).Perm (cells S) := by
  obtain ⟨p, bij, hc⟩ := h
  have hmap : cells (mv S) = (allPos.map p).map (cellAt S) := by
    simp only [cells, List.map_map]
    apply List.map_congr_left
    intro c _
    exact hc S c
  rw [hmap]
  apply List.Perm.map
  apply (List.perm_ext_iff_of_nodup (allPos_nodup.map bij.injective) allPos_nodup).mpr
  intro a
  constructor
  · intro _
    exact mem_allPos a
  · intro _
    obtain ⟨b, hb⟩ := bij.surjective a
    exact List.mem_map.mpr ⟨b, mem_allPos b, hb⟩

theorem isShuffle_ite (c : Prop) [Decidable c] {f g : Cube → Bool × Cube}
    (hf : IsShuffle (fun S => (f S).2)) (hg : IsShuffle (fun S => (g S).2)) :
    IsShuffle (fun S => (if c then f S else g S).2) := by
  by_cases h : c
  · simpa only [if_pos h] using hf
  · simpa only [if_neg h] using hg

theorem isShuffle_applyMove (t : String) : IsShuffle (fun S => (applyMove t S).2) := by
  unfold applyMove
  exact isShuffle_ite _ isShuffle_rotateR <| isShuffle_ite _ (isShuffle_thrice isShuffle_rotateR) <|
    isShuffle_ite _ isShuffle_rotateL <| isShuffle_ite _ (isShuffle_thrice isShuffle_rotateL) <|
    isShuffle_ite _ isShuffle_rotateU <| isShuffle_ite _ (isShuffle_thrice isShuffle_rotateU) <|
    isShuffle_ite _ isShuffle_rotateD <| isShuffle_ite _ (isShuffle_thrice isShuffle_rotateD) <|
    isShuffle_ite _ isShuffle_rotateF <| isShuffle_ite _ (isShuffle_thrice isShuffle_rotateF) <|
    isShuffle_ite _ isShuffle_rotateB <| isShuffle_ite _ (isShuffle_thrice isShuffle_rotateB) <|
    isShuffle_id

theorem isShuffle_foldl {ι : Type} (f : ι → Cube → Cube) (hf : ∀ i, IsShuffle (f i))
    (l : List ι) : IsShuffle (fun S => l.foldl (fun acc i => f i acc) S) := by
  induction l with
  | nil => exact isShuffle_id
  | cons a l ih => exact isShuffle_comp ih (hf a)

theorem isShuffle_scramble (k : Int) (dist : Nat → Fin 12) : IsShuffle (scramble k dist) :=
  isShuffle_foldl (fun i S => (applyMove (moves.get (dist i)) S).2)
    (fun _ => isShuffle_applyMove _) _

theorem new_cell (f : Fin 6) (r k : Fin 3) : new f r k = faceColors f := by
  fin_cases f <;> fin_cases r <;> fin_cases k <;> rfl

theorem reset_eq_new (S : Cube) : reset S = new := by
  funext f r k
  fin_cases f <;> fin_cases r <;> fin_cases k <;> rfl

theorem mem_idx6 (f : Fin 6) : f ∈ [(0 : Fin 6), 1, 2, 3, 4, 5] := by
  fin_cases f <;> simp

theorem mem_idx3 (r : Fin 3) : r ∈ [(0 : Fin 3), 1, 2] := by
  fin_cases r <;> simp

theorem isSolved_iff_cells (S : Cube) :
    isSolved S = true ↔ ∀ (f : Fin 6) (r k : Fin 3), S f r k = faceColors f := by
  simp only [isSolved, List.all_eq_true, decide_eq_true_eq]
  constructor
  · intro h f r k
    exact h f (mem_idx6 f) r (mem_idx3 r) k (mem_idx3 k)
  · intro h f _ r _ k _
    exact h f r k

theorem reachable_cells_perm {S : Cube} (h : Reachable S) : (cells S).Perm (cells new) := by
  induction h with
  | construct => exact List.Perm.refl _
  | byReset s _ _ => rw [reset_eq_new]
  | byMove mv s hm _ ih => exact (cells_perm_of_shuffle (isShuffle_of_mem hm) s).trans ih
  | byApplyMove t s _ ih => exact (cells_perm_of_shuffle (isShuffle_applyMove t) s).trans ih
  | byScramble k dist s _ ih =>
    exact (cells_perm_of_shuffle (isShuffle_scramble k dist) s).trans ih

theorem new_counts : ∀ v ∈ sixColours, (cells new).count v = 9 := by decide

theorem applyMove_reject (t : String) (S : Cube) (h : t ∉ moves) : applyMove t S = (false, S) := by
  simp only [moves, List.mem_cons, List.mem_singleton, List.not_mem_nil, or_false, not_or] at h
  obtain ⟨h1, h2, h3, h4, h5, h6, h7, h8, h9, h10, h11, h12⟩ := h
  simp only [applyMove, h1, h2, h3, h4, h5, h6, h7, h8, h9, h10, h11, h12, or_self, if_false]

theorem applyMove_accept (t : String) (S : Cube) (h : t ∈ moves) : (applyMove t S).1 = true := by
  simp only [moves, List.mem_cons, List.mem_singleton, List.not_mem_nil, or_false] at h
  rcases h with h | h | h | h | h | h | h | h | h | h | h | h <;> subst h <;> rfl

theorem applyMove_flag (t : String) (S : Cube) : (applyMove t S).1 = true ↔ t ∈ moves := by
  constructor
  · intro h
    by_contra hn
    rw [applyMove_reject t S hn] at h
    exact Bool.false_ne_true h
  · exact applyMove_accept t S

theorem applyMove_R (S : Cube) : applyMove "R" S = (true, rotateR S) := rfl
theorem applyMove_L (S : Cube) : applyMove "L" S = (true, rotateL S) := rfl
theorem applyMove_U (S : Cube) : applyMove "U" S = (true, rotateU S) := rfl
theorem applyMove_D (S : Cube) : applyMove "D" S = (true, rotateD S) := rfl
theorem applyMove_F (S : Cube) : applyMove "F" S = (true, rotateF S) := rfl
theorem applyMove_B (S : Cube) : applyMove "B" S = (true, rotateB S) := rfl
theorem applyMove_RPrime (S : Cube) : applyMove "R'" S = (true, rotateRPrime S) := rfl
theorem applyMove_LPrime (S : Cube) : applyMove "L'" S = (true, rotateLPrime S) := rfl
theorem applyMove_UPrime (S : Cube) : applyMove "U'" S = (true, rotateUPrime S) := rfl
theorem applyMove_DPrime (S : Cube) : applyMove "D'" S = (true, rotateDPrime S) := rfl
theorem applyMove_FPrime (S : Cube) : applyMove "F'" S = (true, rotateFPrime S) := rfl
theorem applyMove_BPrime (S : Cube) : applyMove "B'" S = (true, rotateBPrime S) := rfl

/-! ## Edge pieces stay distinguishable -/

theorem respectsEdges_rotateR : RespectsEdges (traceOf rotateR) := by
  intro c
  obtain ⟨f, r, k⟩ := c
  fin_cases f <;> fin_cases r <;> fin_cases k <;> decide

theorem respectsEdges_rotateL : RespectsEdges (traceOf rotateL) := by
  intro c
  obtain ⟨f, r, k⟩ := c
  fin_cases f <;> fin_cases r <;> fin_cases k <;> decide

theorem respectsEdges_rotateU : RespectsEdges (traceOf rotateU) := by
  intro c
  obtain ⟨f, r, k⟩ := c
  fin_cases f <;> fin_cases r <;> fin_cases k <;> decide

theorem respectsEdges_rotateD : RespectsEdges (traceOf rotateD) := by
  intro c
  obtain ⟨f, r, k⟩ := c
  fin_cases f <;> fin_cases r <;> fin_cases k <;> decide

theorem respectsEdges_rotateF : RespectsEdges (traceOf rotateF) := by
  intro c
  obtain ⟨f, r, k⟩ := c
  fin_cases f <;> fin_cases r <;> fin_cases k <;> decide

theorem respectsEdges_rotateB : RespectsEdges (traceOf rotateB) := by
  intro c
  obtain ⟨f, r, k⟩ := c
  fin_cases f <;> fin_cases r <;> fin_cases k <;> decide

theorem edgesDistinct_new : EdgesDistinct new := by
  have h : ∀ c ∈ allPos.filter isEdge, ∀ d ∈ allPos.filter isEdge,
      cellAt new c = cellAt new d → cellAt new (edgeMate c) = cellAt new (edgeMate d) → c = d := by
    decide!
  intro c d hc hd
  exact h c (List.mem_filter.mpr ⟨mem_allPos c, hc⟩) d (List.mem_filter.mpr ⟨mem_allPos d, hd⟩)

theorem runTokens_block8 : runTokens block8Tokens = runMoves block8 := by
  funext S
  simp only [runTokens, runMoves, block8Tokens, block8, List.foldl_cons, List.foldl_nil,
    applyMove_R, applyMove_U]

theorem respectsEdges_comp {p q : Pos → Pos} (hp : RespectsEdges p) (hq : RespectsEdges q) :
    RespectsEdges (fun c => p (q c)) := by
  intro c hc
  obtain ⟨h1, h2⟩ := hq c hc
  obtain ⟨h3, h4⟩ := hp (q c) h1
  exact ⟨h3, by rw [h4, h2]⟩

theorem edgesDistinct_step (mv : Cube → Cube) (p : Pos → Pos)
    (hcell : ∀ S c, cellAt (mv S) c = cellAt S (p c)) (hinj : Function.Injective p)
    (hre : RespectsEdges p) (S : Cube) (h : EdgesDistinct S) : EdgesDistinct (mv S) := by
  intro c d hc hd h1 h2
  obtain ⟨ec, mc⟩ := hre c hc
  obtain ⟨ed, md⟩ := hre d hd
  rw [hcell, hcell] at h1 h2
  rw [← mc, ← md] at h2
  exact hinj (h (p c) (p d) ec ed h1 h2)

theorem fixed_edge (S : Cube) (hS : EdgesDistinct S) (q : Pos → Pos) (hq : RespectsEdges q)
    (hfix : ∀ c, cellAt S (q c) = cellAt S c) (c : Pos) (hc : isEdge c = true) : q c = c := by
  obtain ⟨e, m⟩ := hq c hc
  apply hS (q c) c e hc (hfix c)
  rw [m]
  exact hfix (edgeMate c)

theorem iterate_mod_four (mv : Cube → Cube) (h4 : ∀ S, mv (mv (mv (mv S))) = S) (n : Nat)
    (S : Cube) : mv^[n] S = mv^[n % 4] S := by
  induction n using Nat.strong_induction_on with
  | _ n ih =>
    by_cases hn : n < 4
    · rw [Nat.mod_eq_of_lt hn]
    · have hge : 4 ≤ n := Nat.le_of_not_lt hn
      obtain ⟨m, rfl⟩ : ∃ m, n = m + 4 := ⟨n - 4, by omega⟩
      have e : mv^[m + 4] S = mv^[m] S := by
        rw [Function.iterate_add_apply]
        congr 1
        exact h4 S
      rw [e, ih m (by omega)]
      congr 1
      omega

/-- Three clockwise quarter turns keep the edge pieces distinguishable when one does. -/
theorem edgesDistinct_thrice (mv : Cube → Cube)
    (h : ∀ S, EdgesDistinct S → EdgesDistinct (mv S)) (S : Cube) (hS : EdgesDistinct S) :
    EdgesDistinct (mv (mv (mv S))) :=
  h _ (h _ (h _ hS))

theorem edgesDistinct_rotateR (S : Cube) (h : EdgesDistinct S) : EdgesDistinct (rotateR S) :=
  edgesDistinct_step rotateR _ rotateR_cell
    (bijective_of_four _ traceOf_rotateR_four).injective respectsEdges_rotateR S h

theorem edgesDistinct_rotateL (S : Cube) (h : EdgesDistinct S) : EdgesDistinct (rotateL S) :=
  edgesDistinct_step rotateL _ rotateL_cell
    (bijective_of_four _ traceOf_rotateL_four).injective respectsEdges_rotateL S h

theorem edgesDistinct_rotateU (S : Cube) (h : EdgesDistinct S) : EdgesDistinct (rotateU S) :=
  edgesDistinct_step rotateU _ rotateU_cell
    (bijective_of_four _ traceOf_rotateU_four).injective respectsEdges_rotateU S h

theorem edgesDistinct_rotateD (S : Cube) (h : EdgesDistinct S) : EdgesDistinct (rotateD S) :=
  edgesDistinct_step rotateD _ rotateD_cell
    (bijective_of_four _ traceOf_rotateD_four).injective respectsEdges_rotateD S h

theorem edgesDistinct_rotateF (S : Cube) (h : EdgesDistinct S) : EdgesDistinct (rotateF S) :=
  edgesDistinct_step rotateF _ rotateF_cell
    (bijective_of_four _ traceOf_rotateF_four).injective respectsEdges_rotateF S h

theorem edgesDistinct_rotateB (S : Cube) (h : EdgesDistinct S) : EdgesDistinct (rotateB S) :=
  edgesDistinct_step rotateB _ rotateB_cell
    (bijective_of_four _ traceOf_rotateB_four).injective respectsEdges_rotateB S h

theorem edgesDistinct_of_mem {mv : Cube → Cube} (h : mv ∈ twelveMoves) (S : Cube)
    (hS : EdgesDistinct S) : EdgesDistinct (mv S) := by
  simp only [twelveMoves, List.mem_cons, List.mem_singleton, List.not_mem_nil, or_false] at h
  rcases h with h | h | h | h | h | h | h | h | h | h | h | h <;> subst h
  · exact edgesDistinct_rotateR S hS
  · exact edgesDistinct_thrice rotateR edgesDistinct_rotateR S hS
  · exact edgesDistinct_rotateL S hS
  · exact edgesDistinct_thrice rotateL edgesDistinct_rotateL S hS
  · exact edgesDistinct_rotateU S hS
  · exact edgesDistinct_thrice rotateU edgesDistinct_rotateU S hS
  · exact edgesDistinct_rotateD S hS
  · exact edgesDistinct_thrice rotateD edgesDistinct_rotateD S hS
  · exact edgesDistinct_rotateF S hS
  · exact edgesDistinct_thrice rotateF edgesDistinct_rotateF S hS
  · exact edgesDistinct_rotateB S hS
  · exact edgesDistinct_thrice rotateB edgesDistinct_rotateB S hS

theorem edgesDistinct_of_moveReachable {S : Cube} (h : MoveReachable S) : EdgesDistinct S := by
  induction h with
  | solved => exact edgesDistinct_new
  | step mv s hm _ ih => exact edgesDistinct_of_mem hm s ih

/-- A move copying along `p`, where `p` has order dividing four, respects edge pieces and
moves the edge cell `c0` under one, two and three applications, returns a state with
distinguishable edges to itself exactly after a multiple of four applications. -/
theorem period_exact_of (mv : Cube → Cube) (p : Pos → Pos)
    (hcell : ∀ S c, cellAt (mv S) c = cellAt S (p c))
    (h4 : ∀ c, p (p (p (p c))) = c) (hre : RespectsEdges p)
    (c0 : Pos) (he : isEdge c0 = true)
    (h1 : p c0 ≠ c0) (h2 : p (p c0) ≠ c0) (h3 : p (p (p c0)) ≠ c0)
    (S : Cube) (hS : EdgesDistinct S) (n : Nat) : mv^[n] S = S ↔ n % 4 = 0 := by
  rw [iterate_mod_four mv (four_of_cell mv p hcell h4) n S]
  have hlt : n % 4 < 4 := Nat.mod_lt _ (by decide)
  generalize n % 4 = m at hlt
  interval_cases m
  · simp
  · constructor
    · intro h
      exfalso
      replace h : mv S = S := h
      apply h1
      refine fixed_edge S hS p hre (fun c => ?_) c0 he
      exact (hcell S c).symm.trans (by rw [h])
    · intro h
      exact absurd h (by decide)
  · constructor
    · intro h
      exfalso
      replace h : mv (mv S) = S := h
      apply h2
      refine fixed_edge S hS (fun c => p (p c)) (respectsEdges_comp hre hre) (fun c => ?_) c0 he
      exact (hcell S (p c)).symm.trans ((hcell (mv S) c).symm.trans (by rw [h]))
    · intro h
      exact absurd h (by decide)
  · constructor
    · intro h
      exfalso
      replace h : mv (mv (mv S)) = S := h
      apply h3
      refine fixed_edge S hS (fun c => p (p (p c)))
        (respectsEdges_comp hre (respectsEdges_comp hre hre)) (fun c => ?_) c0 he
      exact (hcell S (p (p c))).symm.trans ((hcell (mv S) (p c)).symm.trans
        ((hcell (mv (mv S)) c).symm.trans (by rw [h])))
    · intro h
      exact absurd h (by decide)

theorem period_exact_of_mem {mv : Cube → Cube} (h : mv ∈ clockwiseMoves) (S : Cube)
    (hS : EdgesDistinct S) (n : Nat) : mv^[n] S = S ↔ n % 4 = 0 := by
  simp only [clockwiseMoves, List.mem_cons, List.mem_singleton, List.not_mem_nil, or_false] at h
  rcases h with h | h | h | h | h | h <;> subst h
  · exact period_exact_of rotateR _ rotateR_cell traceOf_rotateR_four respectsEdges_rotateR
      (RIGHT, 0, 1) (by decide) (by decide) (by decide) (by decide) S hS n
  · exact period_exact_of rotateL _ rotateL_cell traceOf_rotateL_four respectsEdges_rotateL
      (LEFT, 0, 1) (by decide) (by decide) (by decide) (by decide) S hS n
  · exact period_exact_of rotateU _ rotateU_cell traceOf_rotateU_four respectsEdges_rotateU
      (UP, 0, 1) (by decide) (by decide) (by decide) (by decide) S hS n
  · exact period_exact_of rotateD _ rotateD_cell traceOf_rotateD_four respectsEdges_rotateD
      (DOWN, 0, 1) (by decide) (by decide) (by decide) (by decide) S hS n
  · exact period_exact_of rotateF _ rotateF_cell traceOf_rotateF_four respectsEdges_rotateF
      (FRONT, 0, 1) (by decide) (by decide) (by decide) (by decide) S hS n
  · exact period_exact_of rotateB _ rotateB_cell traceOf_rotateB_four respectsEdges_rotateB
      (BACK, 0, 1) (by decide) (by decide) (by decide) (by decide) S hS n

/-! ## Solvability and scramble -/

theorem runMoves_append (a b : List (Cube → Cube)) (S : Cube) :
    runMoves (a ++ b) S = runMoves b (runMoves a S) := by
  simp [runMoves, List.foldl_append]

theorem solvable_of_moveReachable {S : Cube} (h : MoveReachable S) :
    ∃ ms : List (Cube → Cube), (∀ m ∈ ms, m ∈ twelveMoves) ∧ isSolved (runMoves ms S) = true := by
  induction h with
  | solved => exact ⟨[], by simp, (isSolved_iff_cells new).mpr new_cell⟩
  | step mv s hm _ ih =>
    obtain ⟨ms, hms, hsolved⟩ := ih
    refine ⟨[mv, mv, mv] ++ ms, ?_, ?_⟩
    · intro m hmem
      rcases List.mem_append.mp hmem with h3 | h3
      · simp only [List.mem_cons, List.mem_singleton, List.not_mem_nil, or_false, or_self] at h3
        rw [h3]
        exact hm
      · exact hms m h3
    · rw [runMoves_append]
      have e : runMoves [mv, mv, mv] (mv s) = s := four_of_mem hm s
      rw [e]
      exact hsolved

theorem moveReachable_applyMove (t : String) {S : Cube} (h : MoveReachable S) :
    MoveReachable (applyMove t S).2 := by
  by_cases ht : t ∈ moves
  · simp only [moves, List.mem_cons, List.mem_singleton, List.not_mem_nil, or_false] at ht
    rcases ht with e | e | e | e | e | e | e | e | e | e | e | e <;> subst e
    · rw [applyMove_R]
      exact MoveReachable.step rotateR S (by simp [twelveMoves]) h
    · rw [applyMove_RPrime]
      exact MoveReachable.step rotateRPrime S (by simp [twelveMoves]) h
    · rw [applyMove_L]
      exact MoveReachable.step rotateL S (by simp [twelveMoves]) h
    · rw [applyMove_LPrime]
      exact MoveReachable.step rotateLPrime S (by simp [twelveMoves]) h
    · rw [applyMove_U]
      exact MoveReachable.step rotateU S (by simp [twelveMoves]) h
    · rw [applyMove_UPrime]
      exact MoveReachable.step rotateUPrime S (by simp [twelveMoves]) h
    · rw [applyMove_D]
      exact MoveReachable.step rotateD S (by simp [twelveMoves]) h
    · rw [applyMove_DPrime]
      exact MoveReachable.step rotateDPrime S (by simp [twelveMoves]) h
    · rw [applyMove_F]
      exact MoveReachable.step rotateF S (by simp [twelveMoves]) h
    · rw [applyMove_FPrime]
      exact MoveReachable.step rotateFPrime S (by simp [twelveMoves]) h
    · rw [applyMove_B]
      exact MoveReachable.step rotateB S (by simp [twelveMoves]) h
    · rw [applyMove_BPrime]
      exact MoveReachable.step rotateBPrime S (by simp [twelveMoves]) h
  · rw [applyMove_reject t S ht]
    exact h

theorem moveReachable_foldl {ι : Type} (tok : ι → String) (l : List ι) {S : Cube}
    (h : MoveReachable S) :
    MoveReachable (l.foldl (fun acc i => (applyMove (tok i) acc).2) S) := by
  induction l generalizing S with
  | nil => exact h
  | cons a l ih => exact ih (moveReachable_applyMove (tok a) h)

theorem moveReachable_scramble (k : Int) (dist : Nat → Fin 12) {S : Cube}
    (h : MoveReachable S) : MoveReachable (scramble k dist S) :=
  moveReachable_foldl (fun i => moves.get (dist i)) _ h

theorem scramble_eq_runTokens (k : Int) (dist : Nat → Fin 12) (S : Cube) :
    scramble k dist S = runTokens ((List.range k.toNat).map (fun i => moves.get (dist i))) S := by
  simp only [scramble, runTokens, List.foldl_map]

theorem drawn_tokens_eq (dist : Nat → Fin 12) (idx : List (Fin 12))
    (h : ∀ (i : Nat) (hi : i < idx.length), dist i = idx.get ⟨i, hi⟩) :
    (List.range idx.length).map (fun i => moves.get (dist i)) = idx.map moves.get := by
  apply List.ext_getElem
  · simp
  · intro i h1 h2
    simp only [List.getElem_map, List.getElem_range]
    rw [h i (by simpa using h1)]
    rfl

/-! ## Accessor, geometry, frame -/

theorem clockwiseMove_cell (X : Fin 6) (S : Cube) (c : Pos) :
    cellAt (clockwiseMove X S) c = cellAt S (traceOf (clockwiseMove X) c) := by
  fin_cases X
  · exact rotateR_cell S c
  · exact rotateL_cell S c
  · exact rotateU_cell S c
  · exact rotateD_cell S c
  · exact rotateF_cell S c
  · exact rotateB_cell S c

theorem mem_finRange6 (X : Fin 6) : X ∈ List.finRange 6 := List.mem_finRange X

theorem geometryCheck_all : ∀ X ∈ List.finRange 6, ∀ p ∈ allPos, geometryCheck X p = true := by
  decide!

theorem frame_all : ∀ X ∈ List.finRange 6, ∀ p ∈ allPos,
    p ∉ mayChange X → traceOf (clockwiseMove X) p = p := by
  decide!

theorem mayChange_nodup : ∀ X ∈ List.finRange 6,
    (mayChange X).Nodup ∧ (mayChange X).length = 20 := by
  decide!

theorem mayChange_spares_centres :
    ∀ X ∈ List.finRange 6, ∀ f ∈ List.finRange 6, ((f, 1, 1) : Pos) ∉ mayChange X := by
  decide!

theorem mayChange_spares_opposite :
    ∀ X ∈ List.finRange 6, ∀ p ∈ allPos, p.1 = opposite X → p ∉ mayChange X := by
  decide!

theorem mayChange_moves : ∀ X ∈ List.finRange 6,
    ∀ p ∈ mayChange X, cellAt (clockwiseMove X label) p ≠ cellAt label p := by
  decide!

theorem face_turn_all : ∀ X ∈ List.finRange 6, ∀ i ∈ List.finRange 3, ∀ j ∈ List.finRange 3,
    traceOf (clockwiseMove X) (X, j, sub2 i) = (X, i, j) ∧
    traceOf (clockwiseMove X) (traceOf (clockwiseMove X) (traceOf (clockwiseMove X)
      (X, sub2 j, i))) = (X, i, j) := by
  decide!

theorem primeMove_eq (X : Fin 6) (S : Cube) :
    primeMove X S = clockwiseMove X (clockwiseMove X (clockwiseMove X S)) := by
  fin_cases X
  · show rotateRPrime S = rotateR (rotateR (rotateR S))
    rfl
  · show rotateLPrime S = rotateL (rotateL (rotateL S))
    rfl
  · show rotateUPrime S = rotateU (rotateU (rotateU S))
    rfl
  · show rotateDPrime S = rotateD (rotateD (rotateD S))
    rfl
  · show rotateFPrime S = rotateF (rotateF (rotateF S))
    rfl
  · show rotateBPrime S = rotateB (rotateB (rotateB S))
    rfl

theorem rotateFace_cells (S : Cube) (X : Fin 6) (i j : Fin 3) :
    rotateFaceClockwise S X X j (sub2 i) = S X i j ∧
    rotateFaceCounterClockwise S X X (sub2 j) i = S X i j := by
  fin_cases X <;> fin_cases i <;> fin_cases j <;> exact ⟨rfl, rfl⟩

theorem cubieOf_matches_renderer : ∀ p ∈ allPos,
    drawnCell p.1 (cubieOf p) = ((p.2.1.val : Int), (p.2.2.val : Int)) ∧
    dot (normalOf p.1) (cubieOf p) = 1 := by
  decide!

/-! ## Binary32 rounding -/

theorem pow2_eq (k : Int) : pow2 k = (2 : Rat) ^ k := by
  unfold pow2
  split
  · rename_i h
    obtain ⟨n, rfl⟩ := Int.eq_ofNat_of_zero_le h
    simp
  · rename_i h
    have h' : 0 ≤ -k := by omega
    obtain ⟨n, hn⟩ := Int.eq_ofNat_of_zero_le h'
    have hk : k = -(n : Int) := by omega
    subst hk
    simp

theorem pow2_pos (k : Int) : 0 < pow2 k := by
  rw [pow2_eq]
  positivity

theorem pow2_le {a b : Int} (h : a ≤ b) : pow2 a ≤ pow2 b := by
  rw [pow2_eq, pow2_eq]
  exact zpow_le_zpow_right₀ (by norm_num) h

theorem pow2_lt {a b : Int} (h : a < b) : pow2 a < pow2 b := by
  rw [pow2_eq, pow2_eq]
  exact zpow_lt_zpow_right₀ (by norm_num) h

theorem pow2_add (a b : Int) : pow2 (a + b) = pow2 a * pow2 b := by
  rw [pow2_eq, pow2_eq, pow2_eq]
  exact zpow_add₀ (by norm_num) a b

theorem log2Fuel_spec : ∀ (fuel n : Nat), n ≤ fuel → n ≠ 0 →
    2 ^ log2Fuel fuel n ≤ n ∧ n < 2 ^ (log2Fuel fuel n + 1) := by
  intro fuel
  induction fuel with
  | zero => intro n h hn; omega
  | succ fuel ih =>
    intro n h hn
    unfold log2Fuel
    split
    · rename_i h2
      constructor <;> simp <;> omega
    · rename_i h2
      have hle : n / 2 ≤ fuel := by omega
      have hne : n / 2 ≠ 0 := by omega
      obtain ⟨h1, h3⟩ := ih (n / 2) hle hne
      constructor
      · rw [pow_succ]; omega
      · rw [pow_succ]; omega

theorem ilog2_spec (n : Nat) (hn : n ≠ 0) : 2 ^ ilog2 n ≤ n ∧ n < 2 ^ (ilog2 n + 1) :=
  log2Fuel_spec n n (le_refl n) hn
theorem abs_eq_natAbs_div_den (x : Rat) : |x| = (x.num.natAbs : Rat) / (x.den : Rat) := by
  have h : (x.num : Rat) / (x.den : Rat) = x := Rat.num_div_den x
  have hd : (0 : Rat) < (x.den : Rat) := by exact_mod_cast x.den_pos
  conv_lhs => rw [← h]
  rw [abs_div, abs_of_pos hd, Nat.cast_natAbs, Int.cast_abs]

/-- Bounds of a quotient of two naturals by their binary logarithms. -/
theorem quotient_bounds (n d a b : Nat) (hn : 2 ^ a ≤ n ∧ n < 2 ^ (a + 1))
    (hd : 2 ^ b ≤ d ∧ d < 2 ^ (b + 1)) :
    pow2 ((a : Int) - b - 1) < (n : Rat) / d ∧ (n : Rat) / d < pow2 ((a : Int) - b + 1) := by
  have hA : (0 : Rat) < (2 : Rat) ^ a := by positivity
  have hB : (0 : Rat) < (2 : Rat) ^ b := by positivity
  have h1 : ((2 : Rat) ^ a) ≤ n := by exact_mod_cast hn.1
  have h2 : (n : Rat) < 2 * (2 : Rat) ^ a := by
    have : (n : Rat) < (2 : Rat) ^ (a + 1) := by exact_mod_cast hn.2
    rw [pow_succ] at this
    linarith
  have h3 : ((2 : Rat) ^ b) ≤ d := by exact_mod_cast hd.1
  have h4 : (d : Rat) < 2 * (2 : Rat) ^ b := by
    have : (d : Rat) < (2 : Rat) ^ (b + 1) := by exact_mod_cast hd.2
    rw [pow_succ] at this
    linarith
  have hD : (0 : Rat) < d := lt_of_lt_of_le hB h3
  have e0 : pow2 ((a : Int) - b) = (2 : Rat) ^ a / (2 : Rat) ^ b := by
    rw [pow2_eq, zpow_sub₀ (by norm_num : (2 : Rat) ≠ 0), zpow_natCast, zpow_natCast]
  have e1 : pow2 ((a : Int) - b - 1) = (2 : Rat) ^ a / (2 * (2 : Rat) ^ b) := by
    have : (a : Int) - b - 1 = ((a : Int) - b) + (-1) := by ring
    rw [this, pow2_add, e0, pow2_eq]
    field_simp
    ring
  have e2 : pow2 ((a : Int) - b + 1) = (2 * (2 : Rat) ^ a) / (2 : Rat) ^ b := by
    rw [pow2_add, e0, pow2_eq]
    field_simp
    ring
  constructor
  · rw [e1, div_lt_div_iff₀ (by positivity) hD]
    nlinarith
  · rw [e2, div_lt_div_iff₀ hD hB]
    nlinarith

theorem binade_spec (x : Rat) (hx : x ≠ 0) :
    pow2 (binade x) ≤ |x| ∧ |x| < pow2 (binade x + 1) := by
  have hnum : x.num.natAbs ≠ 0 := by
    intro h
    exact hx (Rat.zero_of_num_zero (Int.natAbs_eq_zero.mp h))
  have hb := quotient_bounds x.num.natAbs x.den (ilog2 x.num.natAbs) (ilog2 x.den)
    (ilog2_spec _ hnum) (ilog2_spec _ x.den_nz)
  rw [← abs_eq_natAbs_div_den] at hb
  unfold binade
  simp only
  split
  · rename_i h
    exact ⟨h, hb.2⟩
  · rename_i h
    refine ⟨le_of_lt hb.1, ?_⟩
    rw [sub_add_cancel]
    exact lt_of_not_le h

theorem binade_lt {x : Rat} (hx : x ≠ 0) {k : Int} (h : |x| < pow2 k) : binade x < k := by
  by_contra hc
  have h1 := (binade_spec x hx).1
  have h2 := pow2_le (not_lt.mp hc)
  linarith

theorem le_binade {x : Rat} (hx : x ≠ 0) {k : Int} (h : pow2 k ≤ |x|) : k ≤ binade x := by
  by_contra hc
  have h1 := (binade_spec x hx).2
  have h2 : pow2 (binade x + 1) ≤ pow2 k := pow2_le (by omega)
  linarith

theorem binade_eq {x : Rat} (hx : x ≠ 0) {k : Int} (h1 : pow2 k ≤ |x|) (h2 : |x| < pow2 (k + 1)) :
    binade x = k := by
  have a := le_binade hx h1
  have b := binade_lt hx h2
  omega

theorem binade_mono {x y : Rat} (hx : x ≠ 0) (hy : y ≠ 0) (h : |x| ≤ |y|) :
    binade x ≤ binade y :=
  le_binade hy (le_trans (binade_spec x hx).1 h)

theorem binade_neg (x : Rat) : binade (-x) = binade x := by
  unfold binade
  simp only [Rat.neg_num, Int.natAbs_neg, Rat.neg_den, abs_neg]

theorem ulp32_neg (x : Rat) : ulp32 (-x) = ulp32 x := by
  unfold ulp32
  rw [binade_neg]

theorem ulp32_pos (x : Rat) : 0 < ulp32 x := pow2_pos _
theorem ratFloor_eq (w : Rat) : Rat.floor w = ⌊w⌋ := rfl

theorem ratFloor_le (w : Rat) : ((Rat.floor w : Int) : Rat) ≤ w := by
  rw [ratFloor_eq]
  exact Int.floor_le w

theorem lt_ratFloor_add_one (w : Rat) : w < ((Rat.floor w : Int) : Rat) + 1 := by
  rw [ratFloor_eq]
  exact Int.lt_floor_add_one w

theorem roundNE_cases (w : Rat) : roundNE w = Rat.floor w ∨ roundNE w = Rat.floor w + 1 := by
  unfold roundNE
  simp only
  split_ifs <;> simp

theorem sub_half_le_roundNE (w : Rat) : w - 1 / 2 ≤ (roundNE w : Rat) := by
  have h1 := ratFloor_le w
  have h2 := lt_ratFloor_add_one w
  unfold roundNE
  simp only
  split_ifs with a b c
  · linarith
  · push_cast
    linarith
  · linarith
  · push_cast
    linarith

theorem roundNE_le_add_half (w : Rat) : (roundNE w : Rat) ≤ w + 1 / 2 := by
  have h1 := ratFloor_le w
  have h2 := lt_ratFloor_add_one w
  unfold roundNE
  simp only
  split_ifs with a b c
  · linarith
  · push_cast
    linarith
  · linarith
  · push_cast
    linarith

theorem floor_le_roundNE (w : Rat) : Rat.floor w ≤ roundNE w := by
  rcases roundNE_cases w with h | h <;> omega

theorem int_le_roundNE {w : Rat} {N : Int} (h : (N : Rat) ≤ w) : N ≤ roundNE w := by
  have h1 : N ≤ Rat.floor w := Rat.le_floor.mpr h
  have h2 := floor_le_roundNE w
  omega

theorem roundNE_le_int {w : Rat} {N : Int} (h : w ≤ (N : Rat)) : roundNE w ≤ N := by
  have h1 := ratFloor_le w
  have hfl : Rat.floor w ≤ N := by
    have : ((Rat.floor w : Int) : Rat) ≤ (N : Rat) := le_trans h1 h
    exact_mod_cast this
  unfold roundNE
  simp only
  have up : ¬ (w - (Rat.floor w : Rat) < 1 / 2) → Rat.floor w + 1 ≤ N := by
    intro hfr
    have : ((Rat.floor w : Int) : Rat) < (N : Rat) := by linarith
    have : Rat.floor w < N := by exact_mod_cast this
    omega
  split_ifs with a b c
  · exact hfl
  · exact up a
  · exact hfl
  · exact up a

theorem roundNE_tie_even {w : Rat} {N : Int} (hN : N % 2 = 0) (h : (N : Rat) - 1 / 2 ≤ w) :
    N ≤ roundNE w := by
  by_cases hw : (N : Rat) ≤ w
  · exact int_le_roundNE hw
  · have hw' : w < (N : Rat) := lt_of_not_le hw
    have hfl : Rat.floor w = N - 1 := by
      have h1 : N - 1 ≤ Rat.floor w := Rat.le_floor.mpr (by push_cast; linarith)
      have h2 : ((Rat.floor w : Int) : Rat) < (N : Rat) := lt_of_le_of_lt (ratFloor_le w) hw'
      have h3 : Rat.floor w < N := by exact_mod_cast h2
      omega
    unfold roundNE
    simp only
    rw [hfl]
    have hfr : ¬ (w - ((N - 1 : Int) : Rat) < 1 / 2) := by
      push_cast
      linarith
    have hodd : ¬ ((N - 1) % 2 = 0) := by omega
    split_ifs <;> omega
theorem roundF32_zero : roundF32 0 = 0 := by
  simp [roundF32]

theorem roundF32_of_pos {x : Rat} (hx : 0 < x) :
    roundF32 x = roundNE (x / ulp32 x) * ulp32 x := by
  unfold roundF32
  rw [if_neg (ne_of_gt hx), if_pos hx]

theorem roundF32_of_neg {x : Rat} (hx : x < 0) :
    roundF32 x = -(roundNE (-x / ulp32 x) * ulp32 x) := by
  unfold roundF32
  rw [if_neg (ne_of_lt hx), if_neg (not_lt.mpr (le_of_lt hx))]

theorem roundF32_neg (x : Rat) : roundF32 (-x) = -roundF32 x := by
  rcases lt_trichotomy x 0 with h | h | h
  · rw [roundF32_of_neg h, roundF32_of_pos (neg_pos.mpr h), ulp32_neg, neg_neg]
  · subst h
    simp [roundF32_zero]
  · rw [roundF32_of_pos h, roundF32_of_neg (neg_neg_of_pos h), ulp32_neg, neg_neg]

theorem roundF32_nonneg {x : Rat} (hx : 0 ≤ x) : 0 ≤ roundF32 x := by
  rcases eq_or_lt_of_le hx with h | h
  · rw [← h, roundF32_zero]
  · rw [roundF32_of_pos h]
    have hq := ulp32_pos x
    have hN : (0 : Int) ≤ roundNE (x / ulp32 x) :=
      int_le_roundNE (by push_cast; exact div_nonneg hx (le_of_lt hq))
    have : (0 : Rat) ≤ (roundNE (x / ulp32 x) : Rat) := by exact_mod_cast hN
    exact mul_nonneg this (le_of_lt hq)

/-- The rounding error is at most half the spacing. -/
theorem roundF32_error (x : Rat) : |roundF32 x - x| ≤ ulp32 x / 2 := by
  have key : ∀ y : Rat, 0 < y → |roundF32 y - y| ≤ ulp32 y / 2 := by
    intro y hy
    rw [roundF32_of_pos hy]
    have hq := ulp32_pos y
    have h1 := sub_half_le_roundNE (y / ulp32 y)
    have h2 := roundNE_le_add_half (y / ulp32 y)
    have e : y = y / ulp32 y * ulp32 y := by field_simp
    rw [abs_le]
    constructor
    · have := mul_le_mul_of_nonneg_right h1 (le_of_lt hq)
      nlinarith
    · have := mul_le_mul_of_nonneg_right h2 (le_of_lt hq)
      nlinarith
  rcases lt_trichotomy x 0 with h | h | h
  · have := key (-x) (neg_pos.mpr h)
    rw [roundF32_neg, ulp32_neg] at this
    rw [← abs_neg]
    have e : -(roundF32 x - x) = -roundF32 x - -x := by ring
    rw [e]
    exact this
  · subst h
    rw [roundF32_zero]
    simp
    have := ulp32_pos 0
    linarith
  · exact key x h

/-- The spacing below `2 ^ k`. -/
theorem ulp32_le {x : Rat} (hx : x ≠ 0) {k : Int} (hk : -125 ≤ k) (h : |x| < pow2 k) :
    ulp32 x ≤ pow2 (k - 24) := by
  unfold ulp32
  apply pow2_le
  have := binade_lt hx h
  omega

/-- The spacing from `2 ^ k` on. -/
theorem ulp32_of_binade {x : Rat} {e : Int} (he : -126 ≤ e) (h : binade x = e) :
    ulp32 x = pow2 (e - 23) := by
  unfold ulp32
  rw [h, max_eq_left he]

/-- Rounding does not fall below a power of two that the argument has reached. -/
theorem pow2_le_roundF32 {x : Rat} {k : Int} (hk : -126 ≤ k) (h : pow2 k ≤ x) :
    pow2 k ≤ roundF32 x := by
  have hx : 0 < x := lt_of_lt_of_le (pow2_pos k) h
  have hke : k ≤ binade x := le_binade (ne_of_gt hx) (by rw [abs_of_pos hx]; exact h)
  have hq : ulp32 x = pow2 (binade x - 23) := ulp32_of_binade (by omega) rfl
  rw [roundF32_of_pos hx, hq]
  have hpos := pow2_pos (binade x - 23)
  have hlow : pow2 (binade x) ≤ x := by
    have := (binade_spec x (ne_of_gt hx)).1
    rwa [abs_of_pos hx] at this
  have h23 : pow2 23 = ((2 ^ 23 : Int) : Rat) := by
    rw [pow2_eq]
    norm_num
  have e23 : pow2 (binade x) = ((2 ^ 23 : Int) : Rat) * pow2 (binade x - 23) := by
    rw [← h23, ← pow2_add]
    congr 1
    ring
  have hN : (2 ^ 23 : Int) ≤ roundNE (x / pow2 (binade x - 23)) := by
    apply int_le_roundNE
    rw [le_div_iff₀ hpos, ← e23]
    exact hlow
  have hN' : ((2 ^ 23 : Int) : Rat) ≤ (roundNE (x / pow2 (binade x - 23)) : Rat) := by
    exact_mod_cast hN
  calc pow2 k ≤ pow2 (binade x) := pow2_le hke
    _ = ((2 ^ 23 : Int) : Rat) * pow2 (binade x - 23) := e23
    _ ≤ _ := mul_le_mul_of_nonneg_right hN' (le_of_lt hpos)

/-- A sum that has reached `90 - 2 ^ -18` rounds to at least 90. -/
theorem roundF32_ge_90 {z : Rat} (h : 90 - pow2 (-18) ≤ z) : 90 ≤ roundF32 z := by
  have h18 : pow2 (-18) = 1 / 262144 := by rw [pow2_eq]; norm_num
  have h7 : pow2 7 = 128 := by rw [pow2_eq]; norm_num
  have h6 : pow2 6 = 64 := by rw [pow2_eq]; norm_num
  have h17 : pow2 (6 - 23) = 1 / 131072 := by rw [pow2_eq]; norm_num
  rw [h18] at h
  by_cases hbig : (128 : Rat) ≤ z
  · have := pow2_le_roundF32 (x := z) (k := 7) (by norm_num) (by rw [h7]; exact hbig)
    rw [h7] at this
    linarith
  · have hz : 0 < z := by linarith
    have hb : binade z = 6 := by
      apply binade_eq (ne_of_gt hz)
      · rw [abs_of_pos hz, h6]; linarith
      · rw [abs_of_pos hz]
        show z < pow2 7
        rw [h7]
        exact lt_of_not_le hbig
    rw [roundF32_of_pos hz, ulp32_of_binade (by norm_num) hb, h17]
    have hN : (11796480 : Int) ≤ roundNE (z / (1 / 131072)) := by
      apply roundNE_tie_even (by norm_num)
      rw [le_div_iff₀ (by norm_num)]
      push_cast
      linarith
    have hN' : ((11796480 : Int) : Rat) ≤ (roundNE (z / (1 / 131072)) : Rat) := by
      exact_mod_cast hN
    push_cast at hN'
    linarith
theorem representable_zero : Representable 0 := ⟨0, by simp⟩

theorem representable_neg {f : Rat} (h : Representable f) : Representable (-f) := by
  obtain ⟨m, hm⟩ := h
  refine ⟨-m, ?_⟩
  rw [ulp32_neg]
  push_cast
  linarith

theorem pow2_split23 (e : Int) : pow2 e = ((2 ^ 23 : Int) : Rat) * pow2 (e - 23) := by
  have h23 : pow2 23 = ((2 ^ 23 : Int) : Rat) := by
    rw [pow2_eq]
    norm_num
  rw [← h23, ← pow2_add]
  congr 1
  ring

theorem pow2_split24 (e : Int) : pow2 (e + 1) = ((2 ^ 24 : Int) : Rat) * pow2 (e - 23) := by
  have h24 : pow2 24 = ((2 ^ 24 : Int) : Rat) := by
    rw [pow2_eq]
    norm_num
  rw [← h24, ← pow2_add]
  congr 1
  ring

/-- An integer of at most 24 bits times a spacing of binary32 is a binary32 value. -/
theorem representable_of_scaled (N e : Int) (he : -126 ≤ e) (h0 : 0 ≤ N) (h24 : N ≤ 2 ^ 24)
    (hlow : e = -126 ∨ 2 ^ 23 ≤ N) : Representable ((N : Rat) * pow2 (e - 23)) := by
  have hq := pow2_pos (e - 23)
  rcases eq_or_lt_of_le h0 with hz | hpos
  · rw [← hz]
    simp only [Int.cast_zero, zero_mul]
    exact representable_zero
  have hNpos : (0 : Rat) < (N : Rat) := by exact_mod_cast hpos
  have hy : 0 < (N : Rat) * pow2 (e - 23) := mul_pos hNpos hq
  rcases eq_or_lt_of_le h24 with htop | hlt
  · -- the rounding reached the next power of two
    have ey : (N : Rat) * pow2 (e - 23) = pow2 (e + 1) := by
      rw [pow2_split24, htop]
    rw [ey]
    have hb : binade (pow2 (e + 1)) = e + 1 := by
      apply binade_eq (ne_of_gt (pow2_pos _))
      · rw [abs_of_pos (pow2_pos _)]
      · rw [abs_of_pos (pow2_pos _)]
        exact pow2_lt (by omega)
    refine ⟨2 ^ 23, ?_⟩
    rw [ulp32_of_binade (by omega) hb]
    exact pow2_split23 (e + 1)
  · have hlt' : (N : Rat) < ((2 ^ 24 : Int) : Rat) := by exact_mod_cast hlt
    have hup : (N : Rat) * pow2 (e - 23) < pow2 (e + 1) := by
      rw [pow2_split24]
      exact mul_lt_mul_of_pos_right hlt' hq
    by_cases h23 : (2 : Int) ^ 23 ≤ N
    · have h23' : ((2 ^ 23 : Int) : Rat) ≤ (N : Rat) := by exact_mod_cast h23
      have hdown : pow2 e ≤ (N : Rat) * pow2 (e - 23) := by
        rw [pow2_split23 e]
        exact mul_le_mul_of_nonneg_right h23' (le_of_lt hq)
      have hb : binade ((N : Rat) * pow2 (e - 23)) = e := by
        apply binade_eq (ne_of_gt hy)
        · rw [abs_of_pos hy]; exact hdown
        · rw [abs_of_pos hy]; exact hup
      exact ⟨N, by rw [ulp32_of_binade he hb]⟩
    · have he' : e = -126 := by
        rcases hlow with h | h
        · exact h
        · exact absurd h h23
      have hN23 : (N : Rat) < ((2 ^ 23 : Int) : Rat) := by
        have : N < 2 ^ 23 := lt_of_not_le h23
        exact_mod_cast this
      have hsmall : (N : Rat) * pow2 (e - 23) < pow2 e := by
        rw [pow2_split23 e]
        exact mul_lt_mul_of_pos_right hN23 hq
      have hb : binade ((N : Rat) * pow2 (e - 23)) < e :=
        binade_lt (ne_of_gt hy) (by rw [abs_of_pos hy]; exact hsmall)
      refine ⟨N, ?_⟩
      unfold ulp32
      rw [max_eq_right (by omega), he']

theorem roundF32_representable (x : Rat) : Representable (roundF32 x) := by
  have key : ∀ y : Rat, 0 < y → Representable (roundF32 y) := by
    intro y hy
    rw [roundF32_of_pos hy]
    have hq : 0 < pow2 (max (binade y) (-126) - 23) := pow2_pos _
    have hspec := binade_spec y (ne_of_gt hy)
    rw [abs_of_pos hy] at hspec
    show Representable ((roundNE (y / pow2 (max (binade y) (-126) - 23)) : Rat) *
      pow2 (max (binade y) (-126) - 23))
    apply representable_of_scaled _ _ (le_max_right _ _)
    · apply int_le_roundNE
      push_cast
      exact div_nonneg (le_of_lt hy) (le_of_lt hq)
    · apply roundNE_le_int
      rw [div_le_iff₀ hq, ← pow2_split24]
      exact le_trans (le_of_lt hspec.2) (pow2_le (by have := le_max_left (binade y) (-126); omega))
    · by_cases hn : -126 ≤ binade y
      · right
        apply int_le_roundNE
        rw [le_div_iff₀ hq, ← pow2_split23, max_eq_left hn]
        exact hspec.1
      · left
        exact max_eq_right (by omega)
  rcases lt_trichotomy x 0 with h | h | h
  · have := representable_neg (key (-x) (neg_pos.mpr h))
    rwa [roundF32_neg, neg_neg] at this
  · subst h
    rw [roundF32_zero]
    exact representable_zero
  · exact key x h

/-- Rounding does not fall below a binary32 value that the argument has reached. -/
theorem le_roundF32_of_representable {f x : Rat} (hf : Representable f) (h0 : 0 ≤ f)
    (h : f ≤ x) : f ≤ roundF32 x := by
  rcases eq_or_lt_of_le h0 with hz | hfpos
  · rw [← hz]
    exact roundF32_nonneg (by linarith)
  have hx : 0 < x := lt_of_lt_of_le hfpos h
  have hmono : binade f ≤ binade x :=
    binade_mono (ne_of_gt hfpos) (ne_of_gt hx) (by rw [abs_of_pos hfpos, abs_of_pos hx]; exact h)
  by_cases hsame : max (binade f) (-126) = max (binade x) (-126)
  · obtain ⟨m, hm⟩ := hf
    have hu : ulp32 f = ulp32 x := by
      unfold ulp32
      rw [hsame]
    rw [hu] at hm
    have hq := ulp32_pos x
    rw [roundF32_of_pos hx]
    have hN : m ≤ roundNE (x / ulp32 x) := by
      apply int_le_roundNE
      rw [le_div_iff₀ hq, ← hm]
      exact h
    have hN' : (m : Rat) ≤ (roundNE (x / ulp32 x) : Rat) := by exact_mod_cast hN
    rw [hm]
    exact mul_le_mul_of_nonneg_right hN' (le_of_lt hq)
  · have hnorm : -126 < binade x ∧ binade f < binade x := by
      rcases le_or_lt (binade x) (-126) with hc | hc
      · exfalso
        apply hsame
        rw [max_eq_right hc, max_eq_right (le_trans hmono hc)]
      · refine ⟨hc, ?_⟩
        rcases eq_or_lt_of_le hmono with he | hl
        · exfalso
          apply hsame
          rw [he]
        · exact hl
    have h1 : f < pow2 (binade f + 1) := by
      have := (binade_spec f (ne_of_gt hfpos)).2
      rwa [abs_of_pos hfpos] at this
    have h2 : pow2 (binade f + 1) ≤ pow2 (binade x) := pow2_le (by omega)
    have h3 : pow2 (binade x) ≤ x := by
      have := (binade_spec x (ne_of_gt hx)).1
      rwa [abs_of_pos hx] at this
    have h4 := pow2_le_roundF32 (x := x) (k := binade x) (by omega) h3
    linarith

/-- Below 128 the rounding error is at most `2 ^ -18`. -/
theorem roundF32_error_below_128 {x : Rat} (h0 : 0 ≤ x) (h : x < 128) :
    |roundF32 x - x| ≤ 1 / 262144 := by
  rcases eq_or_lt_of_le h0 with hz | hpos
  · rw [← hz, roundF32_zero]
    norm_num
  · have h7 : pow2 7 = 128 := by rw [pow2_eq]; norm_num
    have h17 : pow2 (7 - 24) = 1 / 131072 := by rw [pow2_eq]; norm_num
    have hu := ulp32_le (x := x) (k := 7) (ne_of_gt hpos) (by norm_num)
      (by rw [abs_of_pos hpos, h7]; exact h)
    rw [h17] at hu
    have he := roundF32_error x
    linarith

theorem roundF32_ge_128 {x : Rat} (h : 128 ≤ x) : 128 ≤ roundF32 x := by
  have h7 : pow2 7 = 128 := by rw [pow2_eq]; norm_num
  have := pow2_le_roundF32 (x := x) (k := 7) (by norm_num) (by rw [h7]; exact h)
  rwa [h7] at this

/-- The float sum of an angle and a rounded increment reaches 90 whenever the exact sum
does. -/
theorem float_sum_ge_90 {c d : Rat} (hc : 0 ≤ c) (hd : 0 ≤ d) (h : 90 ≤ c + d) :
    90 ≤ roundF32 (c + roundF32 d) := by
  have h18 : pow2 (-18) = 1 / 262144 := by rw [pow2_eq]; norm_num
  apply roundF32_ge_90
  rw [h18]
  by_cases hbig : (128 : Rat) ≤ d
  · have := roundF32_ge_128 hbig
    linarith
  · have he := roundF32_error_below_128 hd (lt_of_not_le hbig)
    rw [abs_le] at he
    linarith

/-- While the float sum stays below 90 it is within `2 ^ -17` of the exact sum. -/
theorem float_sum_error {c d : Rat} (hc : 0 ≤ c) (hd : 0 ≤ d)
    (h : roundF32 (c + roundF32 d) < 90) :
    |roundF32 (c + roundF32 d) - (c + d)| ≤ 1 / 131072 := by
  have ha : 0 ≤ roundF32 d := roundF32_nonneg hd
  have hz : c + roundF32 d < 128 := by
    by_contra hn
    have := roundF32_ge_128 (not_lt.mp hn)
    linarith
  have hd128 : d < 128 := by
    by_contra hn
    have := roundF32_ge_128 (not_lt.mp hn)
    linarith
  have e1 := roundF32_error_below_128 hd hd128
  have e2 := roundF32_error_below_128 (add_nonneg hc ha) hz
  rw [abs_le] at e1 e2 ⊢
  constructor <;> linarith

/-! ## Animation coordinator -/

theorem updateUI_cube (g : RubikGame) : (updateUI g).cube = g.cube := by
  unfold updateUI
  split <;> rfl

theorem updateUI_animation (g : RubikGame) : (updateUI g).animation = g.animation := by
  unfold updateUI
  split <;> rfl

theorem applyRotationToCube_animation (g : RubikGame) :
    (applyRotationToCube g).animation = g.animation := by
  unfold applyRotationToCube
  rw [updateUI_animation]

theorem applyRotationToCube_cube (X : Fin 6) (g : RubikGame) (h : g.animation.face = X.val) :
    (applyRotationToCube g).cube =
      if g.animation.clockwise then clockwiseMove X g.cube else primeMove X g.cube := by
  unfold applyRotationToCube
  rw [updateUI_cube]
  simp only [h]
  fin_cases X <;> rfl

theorem updateAnimation_idle (dt : Rat) (g : RubikGame) (h : g.animation.isAnimating = false) :
    updateAnimation dt g = g := by
  simp only [updateAnimation, h, if_true]

theorem updateAnimation_commit_cw (dt : Rat) (g : RubikGame)
    (h1 : g.animation.isAnimating = true) (h3 : g.animation.clockwise = true)
    (hc : g.animation.targetAngle ≤
      roundF32 (g.animation.currentAngle + roundF32 (ANIMATION_SPEED * dt))) :
    updateAnimation dt g = applyRotationToCube { g with animation :=
      { g.animation with currentAngle := g.animation.targetAngle, isAnimating := false } } := by
  simp only [updateAnimation, h1, h3, ge_iff_le, hc, Bool.true_eq_false, if_true, if_false]

theorem updateAnimation_advance_cw (dt : Rat) (g : RubikGame)
    (h1 : g.animation.isAnimating = true) (h3 : g.animation.clockwise = true)
    (hc : ¬ g.animation.targetAngle ≤
      roundF32 (g.animation.currentAngle + roundF32 (ANIMATION_SPEED * dt))) :
    updateAnimation dt g = { g with animation := { g.animation with
      currentAngle := roundF32 (g.animation.currentAngle + roundF32 (ANIMATION_SPEED * dt)) } } := by
  simp only [updateAnimation, h1, h3, ge_iff_le, hc, Bool.true_eq_false, if_true, if_false]

theorem updateAnimation_commit_ccw (dt : Rat) (g : RubikGame)
    (h1 : g.animation.isAnimating = true) (h3 : g.animation.clockwise = false)
    (hc : roundF32 (g.animation.currentAngle - roundF32 (ANIMATION_SPEED * dt)) ≤
      g.animation.targetAngle) :
    updateAnimation dt g = applyRotationToCube { g with animation :=
      { g.animation with currentAngle := g.animation.targetAngle, isAnimating := false } } := by
  simp only [updateAnimation, h1, h3, hc, Bool.true_eq_false, Bool.false_eq_true, if_true,
    if_false]

theorem updateAnimation_advance_ccw (dt : Rat) (g : RubikGame)
    (h1 : g.animation.isAnimating = true) (h3 : g.animation.clockwise = false)
    (hc : ¬ roundF32 (g.animation.currentAngle - roundF32 (ANIMATION_SPEED * dt)) ≤
      g.animation.targetAngle) :
    updateAnimation dt g = { g with animation := { g.animation with
      currentAngle := roundF32 (g.animation.currentAngle - roundF32 (ANIMATION_SPEED * dt)) } } := by
  simp only [updateAnimation, h1, h3, hc, Bool.true_eq_false, Bool.false_eq_true, if_true,
    if_false]

/-- The shape of every state of a sweep in progress. -/
theorem inSweep_shape {face : Int} {cw : Bool} {g : RubikGame} (h : InSweep face cw g) :
    g.animation.isAnimating = true ∧ g.animation.face = face ∧ g.animation.clockwise = cw ∧
    g.animation.targetAngle = (if cw = true then 90 else -90) ∧
    (cw = true → 0 ≤ g.animation.currentAngle) ∧
    (cw = false → g.animation.currentAngle ≤ 0) ∧
    Representable g.animation.currentAngle := by
  induction h with
  | start g0 h0 =>
    have e : (startAnimation face cw g0).animation =
        { face := face, clockwise := cw, currentAngle := 0,
          targetAngle := if cw = true then 90 else -90, isAnimating := true } := by
      simp only [startAnimation, h0, Bool.false_eq_true, if_false]
    rw [e]
    exact ⟨rfl, rfl, rfl, rfl, fun _ => le_refl _, fun _ => le_refl _, representable_zero⟩
  | tick g0 dt _ hdt hstill ih =>
    obtain ⟨h1, h2, h3, h4, h5, h6, _⟩ := ih
    have hd : 0 ≤ roundF32 (ANIMATION_SPEED * dt) :=
      roundF32_nonneg (mul_nonneg (by decide) hdt)
    cases cw with
    | true =>
      by_cases hc : g0.animation.targetAngle ≤
          roundF32 (g0.animation.currentAngle + roundF32 (ANIMATION_SPEED * dt))
      · rw [updateAnimation_commit_cw dt g0 h1 h3 hc, applyRotationToCube_animation] at hstill
        exact absurd hstill (by simp)
      · rw [updateAnimation_advance_cw dt g0 h1 h3 hc]
        refine ⟨h1, h2, h3, h4, fun _ => ?_, fun hf => absurd hf (by simp),
          roundF32_representable _⟩
        exact roundF32_nonneg (add_nonneg (h5 rfl) hd)
    | false =>
      by_cases hc : roundF32 (g0.animation.currentAngle - roundF32 (ANIMATION_SPEED * dt)) ≤
          g0.animation.targetAngle
      · rw [updateAnimation_commit_ccw dt g0 h1 h3 hc, applyRotationToCube_animation] at hstill
        exact absurd hstill (by simp)
      · rw [updateAnimation_advance_ccw dt g0 h1 h3 hc]
        refine ⟨h1, h2, h3, h4, fun hf => absurd hf (by simp), fun _ => ?_,
          roundF32_representable _⟩
        show roundF32 (g0.animation.currentAngle - roundF32 (ANIMATION_SPEED * dt)) ≤ 0
        have e : g0.animation.currentAngle - roundF32 (ANIMATION_SPEED * dt) =
            -(-g0.animation.currentAngle + roundF32 (ANIMATION_SPEED * dt)) := by ring
        rw [e, roundF32_neg]
        have := roundF32_nonneg (x := -g0.animation.currentAngle + roundF32 (ANIMATION_SPEED * dt))
          (by have := h6 rfl; linarith)
        linarith

theorem ticks_idle (dts : List Rat) (g : RubikGame) (h : g.animation.isAnimating = false) :
    dts.foldl (fun acc d => updateAnimation d acc) g = g := by
  induction dts with
  | nil => rfl
  | cons d ds ih =>
    rw [List.foldl_cons, updateAnimation_idle d g h]
    exact ih

/-! ## Period four, round trip, permutation -/

/-- C1: for every grid content and each of the twelve moves, applying the same move four
times in a row gives back exactly the starting state. -/
theorem four_applications_identity (mv : Cube → Cube) (h : mv ∈ twelveMoves) (S : Cube) :
    mv (mv (mv (mv S))) = S :=
  four_of_mem h S

theorem four_applications_identity_witness :
    rotateFPrime ∈ twelveMoves ∧
      rotateFPrime (rotateFPrime (rotateFPrime (rotateFPrime label))) = label :=
  ⟨by simp [twelveMoves], four_applications_identity rotateFPrime (by simp [twelveMoves]) label⟩

/-- C2: for every grid content and every face, the clockwise move immediately followed by
the counter-clockwise move of the same face gives back exactly the starting state. -/
theorem clockwise_then_prime_identity (S : Cube) :
    rotateRPrime (rotateR S) = S ∧ rotateLPrime (rotateL S) = S ∧
    rotateUPrime (rotateU S) = S ∧ rotateDPrime (rotateD S) = S ∧
    rotateFPrime (rotateF S) = S ∧ rotateBPrime (rotateB S) = S :=
  ⟨rotateR_four S, rotateL_four S, rotateU_four S, rotateD_four S, rotateF_four S,
    rotateB_four S⟩

/-- C3: each of the twelve moves is a fixed permutation of the 54 positions: there is a
bijection `p` of positions, chosen before the state, such that every cell `c` of the new
state holds the value the old state had at `p c`. -/
theorem moves_are_fixed_permutations (mv : Cube → Cube) (h : mv ∈ twelveMoves) :
    ∃ p : Pos → Pos, Function.Bijective p ∧
      ∀ (S : Cube) (c : Pos), cellAt (mv S) c = cellAt S (p c) :=
  isShuffle_of_mem h

theorem moves_are_fixed_permutations_witness :
    rotateB ∈ twelveMoves ∧ ∃ p : Pos → Pos, Function.Bijective p ∧
      ∀ (S : Cube) (c : Pos), cellAt (rotateB S) c = cellAt S (p c) :=
  ⟨by simp [twelveMoves], moves_are_fixed_permutations rotateB (by simp [twelveMoves])⟩

/-! ## Colour conservation -/

/-- C4: in every state reachable from a newly constructed cube by `reset`, the twelve
moves, `applyMove` with any string and `scramble` with any count, each of the six colours
occurs in exactly 9 of the 54 cells; and `applyMove` with any string, on any grid content,
leaves the multiset of the 54 cell values unchanged. -/
theorem colour_counts_conserved :
    (∀ S : Cube, Reachable S → ∀ v ∈ sixColours, (cells S).count v = 9) ∧
    (∀ (m : String) (S : Cube),
      ((cells (applyMove m S).2 : List Int) : Multiset Int) =
        ((cells S : List Int) : Multiset Int)) := by
  constructor
  · intro S hS v hv
    rw [(reachable_cells_perm hS).count_eq v]
    exact new_counts v hv
  · intro m S
    exact Multiset.coe_eq_coe.mpr (cells_perm_of_shuffle (isShuffle_applyMove m) S)

theorem colour_counts_conserved_witness :
    Reachable (scramble 3 (fun _ => 4) (rotateFPrime new)) ∧
      (cells (scramble 3 (fun _ => 4) (rotateFPrime new))).count GREEN = 9 :=
  ⟨Reachable.byScramble _ _ _ (Reachable.byMove _ _ (by simp [twelveMoves]) Reachable.construct),
    colour_counts_conserved.1 _
      (Reachable.byScramble _ _ _ (Reachable.byMove _ _ (by simp [twelveMoves]) Reachable.construct))
      GREEN (by simp [sixColours])⟩

/-! ## Move tokens -/

/-- C5: `applyMove t` returns true exactly when `t` is one of the twelve tokens
`R, R', L, L', U, U', D, D', F, F', B, B'`; for every other string (among them lower case,
surrounding blanks, other suffixes, the empty string) it returns false and leaves all
54 cells unchanged. -/
theorem applyMove_recognises_twelve_tokens (t : String) (S : Cube) :
    ((applyMove t S).1 = true ↔
      t ∈ ["R", "R'", "L", "L'", "U", "U'", "D", "D'", "F", "F'", "B", "B'"]) ∧
    (t ∉ ["R", "R'", "L", "L'", "U", "U'", "D", "D'", "F", "F'", "B", "B'"] →
      applyMove t S = (false, S)) ∧
    applyMove "r" S = (false, S) ∧ applyMove " R" S = (false, S) ∧
    applyMove "R " S = (false, S) ∧ applyMove "R2" S = (false, S) ∧
    applyMove "" S = (false, S) :=
  ⟨applyMove_flag t S, applyMove_reject t S, applyMove_reject _ S (by decide),
    applyMove_reject _ S (by decide), applyMove_reject _ S (by decide),
    applyMove_reject _ S (by decide), applyMove_reject _ S (by decide)⟩

theorem applyMove_recognises_twelve_tokens_witness :
    "U2" ∉ ["R", "R'", "L", "L'", "U", "U'", "D", "D'", "F", "F'", "B", "B'"] ∧
      applyMove "U2" label = (false, label) :=
  ⟨by decide, (applyMove_recognises_twelve_tokens "U2" label).2.1 (by decide)⟩

/-! ## Reset and the solved check -/

/-- C6: for every grid content, after `reset()` the solved check returns true and the state
is the state of a newly constructed cube: every cell of each face holds the colour
designated for that face. -/
theorem reset_yields_solved (S : Cube) :
    isSolved (reset S) = true ∧ reset S = new ∧
    ∀ (f : Fin 6) (r c : Fin 3), reset S f r c = faceColors f := by
  have h : reset S = new := reset_eq_new S
  refine ⟨?_, h, ?_⟩
  · rw [h]
    exact (isSolved_iff_cells new).mpr new_cell
  · intro f r c
    rw [h]
    exact new_cell f r c

/-- C7: `isSolved()` returns true exactly when every cell of every face holds the colour
designated for the face (RIGHT red, LEFT orange, UP white, DOWN yellow, FRONT green, BACK
blue); hence exactly one state, the newly constructed one, is solved. The check is a
function of the state alone and returns only the flag. -/
theorem isSolved_characterisation (S : Cube) :
    (isSolved S = true ↔ ∀ (f : Fin 6) (r c : Fin 3), S f r c = faceColors f) ∧
    (isSolved S = true ↔ S = new) ∧
    faceColors RIGHT = RED ∧ faceColors LEFT = ORANGE ∧ faceColors UP = WHITE ∧
    faceColors DOWN = YELLOW ∧ faceColors FRONT = GREEN ∧ faceColors BACK = BLUE := by
  refine ⟨isSolved_iff_cells S, ?_, rfl, rfl, rfl, rfl, rfl, rfl⟩
  rw [isSolved_iff_cells]
  constructor
  · intro h
    funext f r c
    rw [h f r c, new_cell f r c]
  · intro h f r c
    rw [h]
    exact new_cell f r c

/-! ## Counter-clockwise moves -/

/-- C8: for every grid content and every face letter `X`, `applyMove "X"` runs the
clockwise move of `X`, `applyMove "X'"` runs the counter-clockwise move of `X`, and the
latter leaves exactly the state that three consecutive `applyMove "X"` leave. -/
theorem prime_is_three_clockwise (S : Cube) :
    PrimeSpec "R" "R'" rotateR rotateRPrime S ∧ PrimeSpec "L" "L'" rotateL rotateLPrime S ∧
    PrimeSpec "U" "U'" rotateU rotateUPrime S ∧ PrimeSpec "D" "D'" rotateD rotateDPrime S ∧
    PrimeSpec "F" "F'" rotateF rotateFPrime S ∧ PrimeSpec "B" "B'" rotateB rotateBPrime S := by
  refine ⟨⟨applyMove_R S, applyMove_RPrime S, rfl, ?_⟩, ⟨applyMove_L S, applyMove_LPrime S, rfl, ?_⟩,
    ⟨applyMove_U S, applyMove_UPrime S, rfl, ?_⟩, ⟨applyMove_D S, applyMove_DPrime S, rfl, ?_⟩,
    ⟨applyMove_F S, applyMove_FPrime S, rfl, ?_⟩, ⟨applyMove_B S, applyMove_BPrime S, rfl, ?_⟩⟩
  · simp only [applyMove_R, applyMove_RPrime, rotateRPrime]
  · simp only [applyMove_L, applyMove_LPrime, rotateLPrime]
  · simp only [applyMove_U, applyMove_UPrime, rotateUPrime]
  · simp only [applyMove_D, applyMove_DPrime, rotateDPrime]
  · simp only [applyMove_F, applyMove_FPrime, rotateFPrime]
  · simp only [applyMove_B, applyMove_BPrime, rotateBPrime]

/-! ## Exact period of a clockwise move -/

/-- C9: for every clockwise move, every number `n` of repetitions and every state reachable
from the solved cube by the twelve moves, repeating the move `n` times gives back the
state if and only if `n` is a multiple of four. -/
theorem clockwise_period_exactly_four (mv : Cube → Cube) (h : mv ∈ clockwiseMoves) (n : Nat)
    (S : Cube) (hS : MoveReachable S) : mv^[n] S = S ↔ n % 4 = 0 :=
  period_exact_of_mem h S (edgesDistinct_of_moveReachable hS) n

theorem clockwise_period_exactly_four_witness :
    rotateD ∈ clockwiseMoves ∧ MoveReachable (rotateFPrime (rotateU new)) ∧
      (rotateD^[6] (rotateFPrime (rotateU new)) = rotateFPrime (rotateU new) ↔ 6 % 4 = 0) :=
  ⟨by simp [clockwiseMoves],
    MoveReachable.step _ _ (by simp [twelveMoves])
      (MoveReachable.step _ _ (by simp [twelveMoves]) MoveReachable.solved),
    clockwise_period_exactly_four rotateD (by simp [clockwiseMoves]) 6 _
      (MoveReachable.step _ _ (by simp [twelveMoves])
        (MoveReachable.step _ _ (by simp [twelveMoves]) MoveReachable.solved))⟩

/-! ## A long cycle -/

/-- C10: from the solved cube (after `reset()`, whatever the state before), the block
`R, R, U, U, R, R, U, U` applied six times in a row, 48 moves, ends in a state for which
the solved check is true; the same holds when the moves are given to `applyMove` as tokens. -/
theorem r2u2_block_six_times_solved (S : Cube) :
    isSolved ((runMoves block8)^[6] (reset S)) = true ∧
    isSolved ((runTokens block8Tokens)^[6] (reset S)) = true := by
  rw [reset_eq_new, runTokens_block8]
  have h : isSolved ((runMoves block8)^[6] new) = true := by decide!
  exact ⟨h, h⟩

/-! ## The strips of the R move -/

/-- C11: for every state, after `rotateR()` and for every `i` in `0..2`, `UP[i][2]` holds the
old `FRONT[i][2]`, `FRONT[i][2]` the old `DOWN[i][2]`, `DOWN[i][2]` the old `BACK[2-i][0]`
and `BACK[2-i][0]` the old `UP[i][2]`; from the solved cube the right column of UP is all
green, that of FRONT all yellow, that of DOWN all blue and the left column of BACK all
white. -/
theorem rotateR_strip_cycle (S : Cube) (i : Fin 3) :
    (rotateR S UP i 2 = S FRONT i 2 ∧ rotateR S FRONT i 2 = S DOWN i 2 ∧
      rotateR S DOWN i 2 = S BACK (sub2 i) 0 ∧ rotateR S BACK (sub2 i) 0 = S UP i 2) ∧
    (rotateR new UP i 2 = GREEN ∧ rotateR new FRONT i 2 = YELLOW ∧
      rotateR new DOWN i 2 = BLUE ∧ rotateR new BACK i 0 = WHITE) := by
  fin_cases i <;> exact ⟨⟨rfl, rfl, rfl, rfl⟩, ⟨rfl, rfl, rfl, rfl⟩⟩

/-! ## Solvability and determinism of scramble -/

/-- C12: every state reachable from the solved cube by the twelve moves can be solved by a
finite sequence of the twelve moves; the result of `scramble` on such a state, for every
count and every drawn indices, is again such a state and can be solved. -/
theorem scramble_remains_solvable (S : Cube) (hS : MoveReachable S) :
    (∃ ms : List (Cube → Cube), (∀ m ∈ ms, m ∈ twelveMoves) ∧ isSolved (runMoves ms S) = true) ∧
    ∀ (k : Int) (dist : Nat → Fin 12), MoveReachable (scramble k dist S) ∧
      ∃ ms : List (Cube → Cube), (∀ m ∈ ms, m ∈ twelveMoves) ∧
        isSolved (runMoves ms (scramble k dist S)) = true :=
  ⟨solvable_of_moveReachable hS, fun k dist =>
    ⟨moveReachable_scramble k dist hS, solvable_of_moveReachable (moveReachable_scramble k dist hS)⟩⟩

theorem scramble_remains_solvable_witness :
    MoveReachable (rotateU new) ∧
      ∃ ms : List (Cube → Cube), (∀ m ∈ ms, m ∈ twelveMoves) ∧
        isSolved (runMoves ms (rotateU new)) = true :=
  ⟨MoveReachable.step rotateU new (by simp [twelveMoves]) MoveReachable.solved,
    (scramble_remains_solvable (rotateU new)
      (MoveReachable.step rotateU new (by simp [twelveMoves]) MoveReachable.solved)).1⟩

/-- C13: when the generator yields the indices `idx` (dist in iteration `i` is `idx[i]`),
`scramble` with count `idx.length` leaves exactly the state that `applyMove` leaves when
called on the tokens `moves[idx[0]], moves[idx[1]], ...` in that order, where `moves` is
`R, R', L, L', U, U', D, D', F, F', B, B'`; with a count of zero or less the state is
unchanged whatever the generator yields. -/
theorem scramble_follows_drawn_indices (S : Cube) (dist : Nat → Fin 12) :
    (∀ idx : List (Fin 12), (∀ (i : Nat) (hi : i < idx.length), dist i = idx.get ⟨i, hi⟩) →
      scramble (idx.length : Int) dist S = runTokens (idx.map moves.get) S) ∧
    (∀ k : Int, k ≤ 0 → scramble k dist S = S) ∧
    moves = ["R", "R'", "L", "L'", "U", "U'", "D", "D'", "F", "F'", "B", "B'"] := by
  refine ⟨?_, ?_, rfl⟩
  · intro idx h
    rw [scramble_eq_runTokens, Int.toNat_ofNat, drawn_tokens_eq dist idx h]
  · intro k hk
    simp [scramble, Int.toNat_of_nonpos hk]

theorem scramble_follows_drawn_indices_witness :
    (∀ (i : Nat) (hi : i < ([4, 1] : List (Fin 12)).length),
        (fun n : Nat => if n = 0 then (4 : Fin 12) else 1) i = ([4, 1] : List (Fin 12)).get ⟨i, hi⟩) ∧
      scramble (([4, 1] : List (Fin 12)).length : Int)
          (fun n : Nat => if n = 0 then (4 : Fin 12) else 1) new =
        runTokens (([4, 1] : List (Fin 12)).map moves.get) new :=
  ⟨by decide,
    (scramble_follows_drawn_indices new (fun n : Nat => if n = 0 then (4 : Fin 12) else 1)).1
      [4, 1] (by decide)⟩

/-! ## The accessor -/

/-- C16, as claimed, fails: `getColor(6, 0, 0)` on a new cube is an unchecked read out of
range, not a rejection with an error; the same for a negative row and for column 3. -/
theorem getColor_out_of_range_not_rejected :
    getColor new 6 0 0 = Access.undefinedBehaviour ∧ getColor new 6 0 0 ≠ Access.boundsError ∧
    getColor new 0 (-1) 0 ≠ Access.boundsError ∧ getColor new 0 0 3 ≠ Access.boundsError := by
  decide

/-- C16, amended: `getColor` makes no bounds check. For every index in range it returns the
colour stored in the cell (and, being a function of the state, changes nothing); for an
index with face outside `0..5` or row or column outside `0..2` the read is unchecked and
has no defined result: no error is raised and no index is clamped. -/
theorem getColor_unchecked (S : Cube) (face row col : Int) :
    (∀ (f : Fin 6) (r c : Fin 3), face = f.val → row = r.val → col = c.val →
      getColor S face row col = Access.value (S f r c)) ∧
    ((face < 0 ∨ 6 ≤ face ∨ row < 0 ∨ 3 ≤ row ∨ col < 0 ∨ 3 ≤ col) →
      getColor S face row col = Access.undefinedBehaviour) := by
  constructor
  · intro f r c hf hr hc
    subst hf hr hc
    have h : (0 ≤ (f.val : Int) ∧ (f.val : Int) < 6) ∧ (0 ≤ (r.val : Int) ∧ (r.val : Int) < 3) ∧
        (0 ≤ (c.val : Int) ∧ (c.val : Int) < 3) := by omega
    simp only [getColor, h, and_self, dite_true, Int.toNat_ofNat, Fin.eta]
  · intro h
    have hn : ¬((0 ≤ face ∧ face < 6) ∧ (0 ≤ row ∧ row < 3) ∧ (0 ≤ col ∧ col < 3)) := by omega
    simp only [getColor, hn, dite_false]

theorem getColor_unchecked_witness :
    ((7 : Int) < 0 ∨ (6 : Int) ≤ 7 ∨ (0 : Int) < 0 ∨ (3 : Int) ≤ 0 ∨ (0 : Int) < 0 ∨
        (3 : Int) ≤ 0) ∧
      getColor label 7 0 0 = Access.undefinedBehaviour :=
  ⟨by decide, (getColor_unchecked label 7 0 0).2 (by decide)⟩

/-! ## Geometry, frame and face grid -/

/-- C17: with each facelet placed on its cubie by the index computations of the renderer
(`cubieOf` inverts `drawnCell` and lies in the layer of its face), every clockwise move of
a face `X` takes the colour of each facelet on a cubie of the layer of `X` to the facelet
obtained by turning position and normal a quarter turn about the outward axis of `X`,
clockwise seen from outside, and leaves the colour of every other facelet in place. -/
theorem moves_follow_cube_geometry (X : Fin 6) (S : Cube) (p : Pos) :
    (inLayer X p = true →
      ∃ q, turned X p = some q ∧ cellAt (clockwiseMove X S) q = cellAt S p) ∧
    (inLayer X p = false → cellAt (clockwiseMove X S) p = cellAt S p) ∧
    drawnCell p.1 (cubieOf p) = ((p.2.1.val : Int), (p.2.2.val : Int)) ∧
    dot (normalOf p.1) (cubieOf p) = 1 := by
  have h := geometryCheck_all X (mem_finRange6 X) p (mem_allPos p)
  unfold geometryCheck at h
  refine ⟨?_, ?_, cubieOf_matches_renderer p (mem_allPos p)⟩
  · intro hl
    rw [hl] at h
    simp only [if_true] at h
    cases ht : turned X p with
    | none =>
      rw [ht] at h
      exact (Bool.false_ne_true h).elim
    | some q =>
      rw [ht] at h
      refine ⟨q, rfl, ?_⟩
      rw [clockwiseMove_cell, of_decide_eq_true h]
  · intro hl
    rw [hl] at h
    simp only [Bool.false_eq_true, if_false] at h
    rw [clockwiseMove_cell, of_decide_eq_true h]

theorem moves_follow_cube_geometry_witness :
    inLayer RIGHT (FRONT, 0, 2) = true ∧
      ∃ q, turned RIGHT (FRONT, 0, 2) = some q ∧
        cellAt (clockwiseMove RIGHT label) q = cellAt label (FRONT, 0, 2) :=
  ⟨by decide, (moves_follow_cube_geometry RIGHT label (FRONT, 0, 2)).1 (by decide)⟩

/-- C18: for every state and each clockwise move, every cell outside the listed ones (the
eight non-centre cells of the turned face and four strips of three cells, one on each
neighbouring face) keeps its value. The listed cells are 20 distinct cells; no centre cell
and no cell of the opposite face is among them; each of them does change on a grid with
pairwise different values. -/
theorem clockwise_move_frame (X : Fin 6) (S : Cube) :
    (∀ p : Pos, p ∉ mayChange X → cellAt (clockwiseMove X S) p = cellAt S p) ∧
    (mayChange X).Nodup ∧ (mayChange X).length = 20 ∧
    (∀ f : Fin 6, ((f, 1, 1) : Pos) ∉ mayChange X) ∧
    (∀ r c : Fin 3, ((opposite X, r, c) : Pos) ∉ mayChange X) ∧
    (∀ p ∈ mayChange X, cellAt (clockwiseMove X label) p ≠ cellAt label p) := by
  obtain ⟨h1, h2⟩ := mayChange_nodup X (mem_finRange6 X)
  have h3 := mayChange_spares_centres X (mem_finRange6 X)
  have h4 := mayChange_spares_opposite X (mem_finRange6 X)
  have h5 := mayChange_moves X (mem_finRange6 X)
  refine ⟨?_, h1, h2, fun f => h3 f (mem_finRange6 f), fun r c => h4 _ (mem_allPos _) rfl, h5⟩
  intro p hp
  rw [clockwiseMove_cell, frame_all X (mem_finRange6 X) p (mem_allPos p) hp]

theorem clockwise_move_frame_witness :
    ((DOWN, 0, 0) : Pos) ∉ mayChange UP ∧
      cellAt (clockwiseMove UP label) (DOWN, 0, 0) = cellAt label (DOWN, 0, 0) :=
  ⟨by decide, (clockwise_move_frame UP label).1 (DOWN, 0, 0) (by decide)⟩

/-- C19: for every state and every face `X`, after the clockwise move of `X` the cell at
row `j`, column `2 - i` of face `X` holds the old `[X][i][j]`; after the counter-clockwise
move the cell at row `2 - j`, column `i` holds the old `[X][i][j]`. The two helpers
`rotateFaceClockwise` and `rotateFaceCounterClockwise` do the same on the face alone. -/
theorem face_grid_quarter_turn (X : Fin 6) (S : Cube) (i j : Fin 3) :
    clockwiseMove X S X j (sub2 i) = S X i j ∧ primeMove X S X (sub2 j) i = S X i j ∧
    rotateFaceClockwise S X X j (sub2 i) = S X i j ∧
    rotateFaceCounterClockwise S X X (sub2 j) i = S X i j := by
  obtain ⟨h1, h2⟩ := face_turn_all X (mem_finRange6 X) i (List.mem_finRange i) j (List.mem_finRange j)
  refine ⟨?_, ?_, (rotateFace_cells S X i j).1, (rotateFace_cells S X i j).2⟩
  · have e := clockwiseMove_cell X S (X, j, sub2 i)
    rw [h1] at e
    exact e
  · have e : cellAt (primeMove X S) (X, sub2 j, i) = cellAt S (X, i, j) := by
      rw [primeMove_eq, clockwiseMove_cell, clockwiseMove_cell, clockwiseMove_cell, h2]
    exact e

/-! ## Animation coordinator -/

/-- C14: while a sweep is in progress (`isAnimating` true), `startAnimation` with any face
and direction and `handleKeyPress` with any key (scramble and reset keys included) return
the game unchanged: animation fields and all cells of the cube stay as they are. -/
theorem requests_ignored_while_sweeping (g : RubikGame) (h : g.animation.isAnimating = true) :
    (∀ (face : Int) (clockwise : Bool), startAnimation face clockwise g = g) ∧
    (∀ (key : Key) (shift : Bool) (dist : Nat → Fin 12), handleKeyPress key shift dist g = g) := by
  constructor
  · intro face clockwise
    simp only [startAnimation, h, if_true]
  · intro key shift dist
    simp only [handleKeyPress, h, if_true]

theorem requests_ignored_while_sweeping_witness :
    (startAnimation 2 true restGame).animation.isAnimating = true ∧
      handleKeyPress Key.Space false (fun _ => 0) (startAnimation 2 true restGame) =
        startAnimation 2 true restGame :=
  ⟨rfl, (requests_ignored_while_sweeping (startAnimation 2 true restGame) rfl).2
    Key.Space false (fun _ => 0)⟩

/-- C15: for a sweep of face `X` in direction `cw` started from idle, a tick with elapsed
time `dt >= 0` and `|currentAngle| + 300 dt >= 90` sets `currentAngle` to exactly `+90`
(clockwise) or `-90`, clears `isAnimating`, and leaves the cube with exactly one
application of the move of `(X, cw)`; any later ticks change nothing at all. -/
theorem overshoot_clamps_and_commits_once (X : Fin 6) (cw : Bool) (g : RubikGame)
    (hs : InSweep (X.val : Int) cw g) (dt : Rat) (hdt : 0 ≤ dt)
    (hover : 90 ≤ |g.animation.currentAngle| + 300 * dt) :
    (updateAnimation dt g).animation.currentAngle = (if cw = true then 90 else -90) ∧
    (updateAnimation dt g).animation.isAnimating = false ∧
    (updateAnimation dt g).cube =
      (if cw = true then clockwiseMove X g.cube else primeMove X g.cube) ∧
    ∀ dts : List Rat,
      dts.foldl (fun acc d => updateAnimation d acc) (updateAnimation dt g) =
        updateAnimation dt g := by
  obtain ⟨h1, h2, h3, h4, h5, h6, _⟩ := inSweep_shape hs
  have hd : 0 ≤ ANIMATION_SPEED * dt := mul_nonneg (by decide) hdt
  have hspeed : ANIMATION_SPEED = 300 := rfl
  cases cw with
  | true =>
    have hcur := h5 rfl
    rw [abs_of_nonneg hcur] at hover
    have hc : g.animation.targetAngle ≤
        roundF32 (g.animation.currentAngle + roundF32 (ANIMATION_SPEED * dt)) := by
      rw [h4]
      simp only [if_true]
      exact float_sum_ge_90 hcur hd (by rw [hspeed]; exact hover)
    have e := updateAnimation_commit_cw dt g h1 h3 hc
    have ea : (updateAnimation dt g).animation = { g.animation with
        currentAngle := g.animation.targetAngle, isAnimating := false } := by
      rw [e, applyRotationToCube_animation]
    have hidle : (updateAnimation dt g).animation.isAnimating = false := by rw [ea]
    refine ⟨by rw [ea]; exact h4, hidle, ?_, fun dts => ticks_idle dts _ hidle⟩
    have hcube := applyRotationToCube_cube X { g with animation := { g.animation with
      currentAngle := g.animation.targetAngle, isAnimating := false } } h2
    rw [e, hcube]
    simp only [h3, if_true]
  | false =>
    have hcur := h6 rfl
    rw [abs_of_nonpos hcur] at hover
    have hc : roundF32 (g.animation.currentAngle - roundF32 (ANIMATION_SPEED * dt)) ≤
        g.animation.targetAngle := by
      rw [h4]
      simp only [Bool.false_eq_true, if_false]
      have e : g.animation.currentAngle - roundF32 (ANIMATION_SPEED * dt) =
          -(-g.animation.currentAngle + roundF32 (ANIMATION_SPEED * dt)) := by ring
      rw [e, roundF32_neg]
      have := float_sum_ge_90 (c := -g.animation.currentAngle) (by linarith) hd
        (by rw [hspeed]; exact hover)
      linarith
    have e := updateAnimation_commit_ccw dt g h1 h3 hc
    have ea : (updateAnimation dt g).animation = { g.animation with
        currentAngle := g.animation.targetAngle, isAnimating := false } := by
      rw [e, applyRotationToCube_animation]
    have hidle : (updateAnimation dt g).animation.isAnimating = false := by rw [ea]
    refine ⟨by rw [ea]; exact h4, hidle, ?_, fun dts => ticks_idle dts _ hidle⟩
    have hcube := applyRotationToCube_cube X { g with animation := { g.animation with
      currentAngle := g.animation.targetAngle, isAnimating := false } } h2
    rw [e, hcube]
    simp only [h3, Bool.false_eq_true, if_false]

theorem overshoot_clamps_and_commits_once_witness :
    InSweep ((4 : Fin 6).val : Int) false (startAnimation 4 false restGame) ∧
      (0 : Rat) ≤ 1 / 2 ∧
      90 ≤ |(startAnimation 4 false restGame).animation.currentAngle| + 300 * (1 / 2 : Rat) ∧
      (updateAnimation (1 / 2) (startAnimation 4 false restGame)).cube = rotateFPrime new :=
  ⟨InSweep.start restGame rfl, by norm_num,
    by simp [startAnimation, restGame, AnimationState.init]; norm_num,
    (overshoot_clamps_and_commits_once 4 false (startAnimation 4 false restGame)
      (InSweep.start restGame rfl) (1 / 2) (by norm_num)
      (by simp [startAnimation, restGame, AnimationState.init]; norm_num)).2.2.1⟩

/-- C20, as claimed, fails: in a clockwise sweep standing at 75 degrees a tick of
`3355443 / 2 ^ 26` seconds has the exact sum `75 + 300 dt` below 90, yet the two `float`
operations give exactly 90, so the tick clears `isAnimating` and commits `rotateR`; and
from angle 0 a tick of `13421773 / 2 ^ 27` seconds (the `float` 0.1) moves the angle to
exactly 30, which is not `300 dt`. -/
theorem incomplete_tick_exact_sum_refuted :
    InSweep 0 true sweepAt75 ∧ sweepAt75.animation.currentAngle = 75 ∧
    (0 : Rat) ≤ 3355443 / 67108864 ∧
    |sweepAt75.animation.currentAngle| + 300 * (3355443 / 67108864 : Rat) < 90 ∧
    (updateAnimation (3355443 / 67108864) sweepAt75).animation.isAnimating = false ∧
    (updateAnimation (3355443 / 67108864) sweepAt75).cube = rotateR new ∧
    rotateR new ≠ sweepAt75.cube ∧
    (updateAnimation (13421773 / 134217728) (startAnimation 0 true restGame)).animation.currentAngle
      = 30 ∧
    (300 : Rat) * (13421773 / 134217728) ≠ 30 := by
  have hstill : (updateAnimation (1 / 4) (startAnimation 0 true restGame)).animation.isAnimating
      = true := by decide!
  have hsweep : InSweep 0 true sweepAt75 :=
    InSweep.tick _ (1 / 4) (InSweep.start restGame rfl) (by norm_num) hstill
  obtain ⟨h1, h2, h3, _⟩ := inSweep_shape hsweep
  have hc : sweepAt75.animation.targetAngle ≤ roundF32 (sweepAt75.animation.currentAngle +
      roundF32 (ANIMATION_SPEED * (3355443 / 67108864))) := by decide!
  have e := updateAnimation_commit_cw (3355443 / 67108864) sweepAt75 h1 h3 hc
  have hcube := applyRotationToCube_cube RIGHT
    { sweepAt75 with animation := { sweepAt75.animation with
      currentAngle := sweepAt75.animation.targetAngle, isAnimating := false } } h2
  have hadv := updateAnimation_advance_cw (1 / 4) (startAnimation 0 true restGame) rfl rfl
    (by decide!)
  have hsame : sweepAt75.cube = new := by
    unfold sweepAt75
    rw [hadv]
    rfl
  have hmoved : rotateR new UP 0 2 ≠ new UP 0 2 := by decide!
  refine ⟨hsweep, by decide!, by norm_num, by decide!, ?_, ?_, ?_, by decide!, by norm_num⟩
  · rw [e, applyRotationToCube_animation]
  · rw [e, hcube]
    simp only [h3, if_true]
    rw [hsame]
    rfl
  · rw [hsame]
    intro h
    exact hmoved (by rw [h])

/-- C20, amended: for a sweep in progress, a tick with elapsed time `dt >= 0` for which the
`float` sum that the code computes, `fl(|currentAngle| + fl(300 dt))`, is below 90 leaves
all cells of the cube, `isAnimating` (true), face, direction and `targetAngle` unchanged
and makes `|currentAngle|` that sum: it does not decrease, stays below 90 and is within
`2 ^ -17` of `|currentAngle| + 300 dt`; a tick while idle changes nothing. -/
theorem incomplete_tick_only_advances_angle (face : Int) (cw : Bool) (g : RubikGame)
    (hs : InSweep face cw g) (dt : Rat) (hdt : 0 ≤ dt)
    (hlt : roundF32 (|g.animation.currentAngle| + roundF32 (300 * dt)) < 90) :
    (updateAnimation dt g).cube = g.cube ∧
    (updateAnimation dt g).animation.isAnimating = true ∧
    (updateAnimation dt g).animation.face = g.animation.face ∧
    (updateAnimation dt g).animation.clockwise = g.animation.clockwise ∧
    (updateAnimation dt g).animation.targetAngle = g.animation.targetAngle ∧
    |(updateAnimation dt g).animation.currentAngle| =
      roundF32 (|g.animation.currentAngle| + roundF32 (300 * dt)) ∧
    |g.animation.currentAngle| ≤ |(updateAnimation dt g).animation.currentAngle| ∧
    |(updateAnimation dt g).animation.currentAngle| < 90 ∧
    |(|(updateAnimation dt g).animation.currentAngle|) - (|g.animation.currentAngle| + 300 * dt)|
      ≤ 1 / 131072 ∧
    (∀ (g0 : RubikGame) (d : Rat), g0.animation.isAnimating = false →
      updateAnimation d g0 = g0) := by
  obtain ⟨h1, _, h3, h4, h5, h6, hrep⟩ := inSweep_shape hs
  have hd : 0 ≤ 300 * dt := mul_nonneg (by norm_num) hdt
  have hspeed : ANIMATION_SPEED = 300 := rfl
  have ha : 0 ≤ roundF32 (300 * dt) := roundF32_nonneg hd
  have habs : 0 ≤ |g.animation.currentAngle| := abs_nonneg _
  have hrepabs : Representable |g.animation.currentAngle| := by
    rcases abs_choice g.animation.currentAngle with e | e
    · rw [e]
      exact hrep
    · rw [e]
      exact representable_neg hrep
  have hnew0 : 0 ≤ roundF32 (|g.animation.currentAngle| + roundF32 (300 * dt)) :=
    roundF32_nonneg (add_nonneg habs ha)
  have hgrow : |g.animation.currentAngle| ≤
      roundF32 (|g.animation.currentAngle| + roundF32 (300 * dt)) :=
    le_roundF32_of_representable hrepabs habs (by linarith)
  have herr := float_sum_error habs hd hlt
  have hidle : ∀ (g0 : RubikGame) (d : Rat), g0.animation.isAnimating = false →
      updateAnimation d g0 = g0 := fun g0 d h0 => updateAnimation_idle d g0 h0
  cases cw with
  | true =>
    have hcur := h5 rfl
    rw [abs_of_nonneg hcur] at hlt hgrow herr hnew0 ⊢
    have hc : ¬ g.animation.targetAngle ≤
        roundF32 (g.animation.currentAngle + roundF32 (ANIMATION_SPEED * dt)) := by
      rw [h4, hspeed]
      simp only [if_true, not_le]
      exact hlt
    rw [updateAnimation_advance_cw dt g h1 h3 hc, hspeed]
    have hnew : |roundF32 (g.animation.currentAngle + roundF32 (300 * dt))| =
        roundF32 (g.animation.currentAngle + roundF32 (300 * dt)) := abs_of_nonneg hnew0
    refine ⟨rfl, h1, rfl, rfl, rfl, hnew, ?_, ?_, ?_, hidle⟩
    · show g.animation.currentAngle ≤
        |roundF32 (g.animation.currentAngle + roundF32 (300 * dt))|
      rw [hnew]
      exact hgrow
    · show |roundF32 (g.animation.currentAngle + roundF32 (300 * dt))| < 90
      rw [hnew]
      exact hlt
    · show |(|roundF32 (g.animation.currentAngle + roundF32 (300 * dt))|) -
        (g.animation.currentAngle + 300 * dt)| ≤ 1 / 131072
      rw [hnew]
      exact herr
  | false =>
    have hcur := h6 rfl
    rw [abs_of_nonpos hcur] at hlt hgrow herr hnew0 ⊢
    have eneg : g.animation.currentAngle - roundF32 (300 * dt) =
        -(-g.animation.currentAngle + roundF32 (300 * dt)) := by ring
    have hc : ¬ roundF32 (g.animation.currentAngle - roundF32 (ANIMATION_SPEED * dt)) ≤
        g.animation.targetAngle := by
      rw [h4, hspeed, eneg, roundF32_neg]
      simp only [Bool.false_eq_true, if_false, not_le]
      linarith
    rw [updateAnimation_advance_ccw dt g h1 h3 hc, hspeed]
    have hnew : |roundF32 (g.animation.currentAngle - roundF32 (300 * dt))| =
        roundF32 (-g.animation.currentAngle + roundF32 (300 * dt)) := by
      rw [eneg, roundF32_neg, abs_neg]
      exact abs_of_nonneg hnew0
    refine ⟨rfl, h1, rfl, rfl, rfl, hnew, ?_, ?_, ?_, hidle⟩
    · show -g.animation.currentAngle ≤
        |roundF32 (g.animation.currentAngle - roundF32 (300 * dt))|
      rw [hnew]
      exact hgrow
    · show |roundF32 (g.animation.currentAngle - roundF32 (300 * dt))| < 90
      rw [hnew]
      exact hlt
    · show |(|roundF32 (g.animation.currentAngle - roundF32 (300 * dt))|) -
        (-g.animation.currentAngle + 300 * dt)| ≤ 1 / 131072
      rw [hnew]
      exact herr

theorem incomplete_tick_only_advances_angle_witness :
    InSweep 1 true (startAnimation 1 true restGame) ∧ (0 : Rat) ≤ 1 / 10 ∧
      roundF32 (|(startAnimation 1 true restGame).animation.currentAngle| +
        roundF32 (300 * (1 / 10 : Rat))) < 90 ∧
      (updateAnimation (1 / 10) (startAnimation 1 true restGame)).cube =
        (startAnimation 1 true restGame).cube :=
  ⟨InSweep.start restGame rfl, by norm_num, by decide!,
    (incomplete_tick_only_advances_angle 1 true (startAnimation 1 true restGame)
      (InSweep.start restGame rfl) (1 / 10) (by norm_num) (by decide!)).1⟩

end Rubik
